import Mathlib

/-!
Verification of the talkcody LLM streaming protocol engine
(src-tauri/src/llm: stream_handler.rs, model_resolver.rs, model_registry.rs).

The Rust source is shallowly embedded: each Rust function becomes an
executable Lean definition with the same name (snake_case kept where Lean
allows), `HashMap`/`HashSet` become association lists / membership lists
(only `get`/`entry`/`insert`/`contains` are used by the source on them),
`serde_json::Value` becomes the inductive `Json` below together with an
executable parser mirroring `serde_json::from_str`, and the orchestrator's
chunk/frame loops become fuel-indexed recursive functions over byte lists
(the fuel equals the buffer length, which the ≥2-byte frame consumption
makes sufficient).
-/

namespace Talkcody

/-! ## JSON values (embedding of `serde_json::Value`)

`serde_json` stores integers (i64/u64) and floating point numbers
separately: `as_i64`/`as_u64` succeed only on the former.  We mirror that
with two numeric constructors; float values are carried exactly as
rationals (the decoder under verification never compares float values).
Objects are association lists; `serde_json`'s map semantics (duplicate
keys: last one wins; lookup by key) are reproduced by `objInsert` in the
parser and `Json.get`. -/
inductive Json where
  | null
  | bool (b : Bool)
  | int (n : Int)
  | float (q : Rat)
  | str (s : String)
  | arr (elems : List Json)
  | obj (members : List (String × Json))

/-- Lookup of a key in an object, `serde_json::Value::get`: `None` on
non-objects. -/
def Json.get (j : Json) (key : String) : Option Json :=
  match j with
  | .obj members => (members.find? (fun m => m.1 == key)).map (·.2)
  | _ => none

/-- `Value::as_str`. -/
def Json.asStr : Json → Option String
  | .str s => some s
  | _ => none

/-- `Value::as_i64` (integer range abstracted to `Int`; floats refuse,
as in `serde_json`). -/
def Json.asI64 : Json → Option Int
  | .int n => some n
  | _ => none

/-- `Value::as_u64`. -/
def Json.asU64 : Json → Option Nat
  | .int n => if 0 ≤ n then some n.toNat else none
  | _ => none

/-- `Value::as_array`. -/
def Json.asArray : Json → Option (List Json)
  | .arr elems => some elems
  | _ => none

/-! ## JSON text parsing (embedding of `serde_json::from_str`)

A recursive-descent parser over `List Char` following the JSON grammar
enforced by `serde_json`: strict numbers (no leading zeros), string
escapes including `\uXXXX` with surrogate pairs, no trailing garbage.
Recursion is fuel-indexed; `jsonParse` supplies fuel larger than the
input length, which bounds the recursion depth. -/

def objInsert (members : List (String × Json)) (key : String) (v : Json) :
    List (String × Json) :=
  match members with
  | [] => [(key, v)]
  | m :: rest =>
      if m.1 == key then (key, v) :: rest else m :: objInsert rest key v

def isJsonWs (c : Char) : Bool :=
  c == ' ' || c == '\t' || c == '\n' || c == '\r'

def skipWs : List Char → List Char
  | [] => []
  | c :: cs => if isJsonWs c then skipWs cs else c :: cs

/-- Rust `str::trim` (whitespace stripped at both ends), evaluated on
the character list. -/
def strTrim (s : String) : String :=
  String.mk (((s.data.dropWhile Char.isWhitespace).reverse.dropWhile
    Char.isWhitespace).reverse)

/-- Rust `str::split(sep: char)`: all (possibly empty) pieces. -/
def splitChAux (sep : Char) : List Char → List Char → List (List Char)
  | [], acc => [acc.reverse]
  | c :: cs, acc =>
      if c == sep then acc.reverse :: splitChAux sep cs []
      else splitChAux sep cs (c :: acc)

def splitOnChar (sep : Char) (s : String) : List String :=
  (splitChAux sep s.data []).map String.mk

/-- Rust `str::contains(c: char)`. -/
def strContainsChar (s : String) (c : Char) : Bool := s.data.contains c

/-- Join pieces with a separator (`Vec::join` / `intercalate`). -/
def joinSep (sep : String) : List String → String
  | [] => ""
  | [x] => x
  | x :: rest => x ++ sep ++ joinSep sep rest

def hexVal (c : Char) : Option Nat :=
  let n := c.toNat
  if 48 ≤ n ∧ n ≤ 57 then some (n - 48)
  else if 97 ≤ n ∧ n ≤ 102 then some (n - 87)
  else if 65 ≤ n ∧ n ≤ 70 then some (n - 55)
  else none

def parseHex4 : List Char → Option (Nat × List Char)
  | c1 :: c2 :: c3 :: c4 :: rest =>
      match hexVal c1, hexVal c2, hexVal c3, hexVal c4 with
      | some h1, some h2, some h3, some h4 =>
          some (((h1 * 16 + h2) * 16 + h3) * 16 + h4, rest)
      | _, _, _, _ => none
  | _ => none

/-- Parse the remainder of a JSON string literal (after the opening
quote), producing the accumulated characters.  Escapes and the
surrogate-pair rules follow `serde_json`: lone surrogates are rejected. -/
def parseStringBody : Nat → List Char → Option (List Char × List Char)
  | 0, _ => none
  | _ + 1, [] => none
  | fuel + 1, c :: cs =>
    if c == '"' then some ([], cs)
    else if c == '\\' then
      match cs with
      | [] => none
      | e :: cs' =>
        let simple : Option Char :=
          if e == '"' then some '"'
          else if e == '\\' then some '\\'
          else if e == '/' then some '/'
          else if e == 'b' then some (Char.ofNat 8)
          else if e == 'f' then some (Char.ofNat 12)
          else if e == 'n' then some '\n'
          else if e == 'r' then some '\r'
          else if e == 't' then some '\t'
          else none
        match simple with
        | some ch =>
            match parseStringBody fuel cs' with
            | some (body, rest) => some (ch :: body, rest)
            | none => none
        | none =>
          if e == 'u' then
            match parseHex4 cs' with
            | none => none
            | some (u, cs'') =>
              if 0xD800 ≤ u && u ≤ 0xDBFF then
                match cs'' with
                | '\\' :: 'u' :: cs3 =>
                  match parseHex4 cs3 with
                  | some (lo, cs4) =>
                    if 0xDC00 ≤ lo && lo ≤ 0xDFFF then
                      let code := 0x10000 + (u - 0xD800) * 0x400 + (lo - 0xDC00)
                      match parseStringBody fuel cs4 with
                      | some (body, rest) => some (Char.ofNat code :: body, rest)
                      | none => none
                    else none
                  | none => none
                | _ => none
              else if 0xDC00 ≤ u && u ≤ 0xDFFF then none
              else
                match parseStringBody fuel cs'' with
                | some (body, rest) => some (Char.ofNat u :: body, rest)
                | none => none
          else none
    else if c.toNat < 0x20 then none
    else
      match parseStringBody fuel cs with
      | some (body, rest) => some (c :: body, rest)
      | none => none

def digitsToNat (ds : List Char) : Nat :=
  ds.foldl (fun acc d => acc * 10 + (d.toNat - '0'.toNat)) 0

def takeDigits : List Char → List Char × List Char
  | [] => ([], [])
  | c :: cs =>
      if '0' ≤ c && c ≤ '9' then
        let (ds, rest) := takeDigits cs
        (c :: ds, rest)
      else ([], c :: cs)

/-- Parse a JSON number starting at the current position.  `serde_json`
grammar: optional minus, `0` or a non-zero-led digit run, optional
fraction, optional exponent.  Integer literals (no fraction/exponent)
yield `Json.int`, everything else `Json.float` (held exactly as a
rational; the decoder never inspects float values). -/
def parseNumber (cs0 : List Char) : Option (Json × List Char) :=
  let (neg, cs1) :=
    match cs0 with
    | '-' :: rest => (true, rest)
    | _ => (false, cs0)
  let intPart : Option (List Char × List Char) :=
    match cs1 with
    | '0' :: rest => some (['0'], rest)
    | c :: _ =>
        if '1' ≤ c && c ≤ '9' then
          let (ds, rest) := takeDigits cs1
          some (ds, rest)
        else none
    | [] => none
  match intPart with
  | none => none
  | some (ids, cs2) =>
    let fracPart : Option (List Char × List Char) :=
      match cs2 with
      | '.' :: rest =>
          let (ds, rest') := takeDigits rest
          if ds.isEmpty then none else some (ds, rest')
      | _ => some ([], cs2)
    match fracPart with
    | none => none
    | some (fds, cs3) =>
      let expPart : Option (Bool × List Char × List Char) :=
        match cs3 with
        | e :: rest =>
            if e == 'e' || e == 'E' then
              let (esign, rest1) :=
                match rest with
                | '+' :: r => (false, r)
                | '-' :: r => (true, r)
                | _ => (false, rest)
              let (ds, rest2) := takeDigits rest1
              if ds.isEmpty then none else some (esign, ds, rest2)
            else some (false, [], cs3)
        | [] => some (false, [], cs3)
      match expPart with
      | none => none
      | some (eneg, eds, cs4) =>
        if fds.isEmpty && eds.isEmpty then
          let n : Int := Int.ofNat (digitsToNat ids)
          some (.int (if neg then -n else n), cs4)
        else
          let mantissa : Int := Int.ofNat (digitsToNat (ids ++ fds))
          let mantissa := if neg then -mantissa else mantissa
          let exp10 : Int := (if eneg then -(Int.ofNat (digitsToNat eds)) else Int.ofNat (digitsToNat eds)) - Int.ofNat fds.length
          let base : Rat := (mantissa : Rat)
          let scale : Rat :=
            if 0 ≤ exp10 then ((10 : Rat) ^ exp10.toNat)
            else 1 / ((10 : Rat) ^ (-exp10).toNat)
          some (.float (base * scale), cs4)

/-- Check that the input starts with the given keyword characters and
return the remainder. -/
def takeLit : List Char → List Char → Option (List Char)
  | [], rest => some rest
  | _ :: _, [] => none
  | k :: ks, c :: cs => if k == c then takeLit ks cs else none

mutual

/-- Parse one JSON value (whitespace already allowed in front). -/
def parseValue : Nat → List Char → Option (Json × List Char)
  | 0, _ => none
  | fuel + 1, input =>
    match skipWs input with
    | [] => none
    | c :: cs =>
      if c == '{' then parseObjMembers fuel (skipWs cs) []
      else if c == '[' then parseArrElems fuel (skipWs cs)
      else if c == '"' then
        match parseStringBody (cs.length + 1) cs with
        | some (body, rest) => some (.str (String.mk body), rest)
        | none => none
      else if c == 't' then
        match takeLit ['r', 'u', 'e'] cs with
        | some rest => some (.bool true, rest)
        | none => none
      else if c == 'f' then
        match takeLit ['a', 'l', 's', 'e'] cs with
        | some rest => some (.bool false, rest)
        | none => none
      else if c == 'n' then
        match takeLit ['u', 'l', 'l'] cs with
        | some rest => some (.null, rest)
        | none => none
      else parseNumber (c :: cs)

/-- Parse the members of an object after `{` (first argument position is
just after the opening brace, whitespace skipped). -/
def parseObjMembers : Nat → List Char → List (String × Json) →
    Option (Json × List Char)
  | 0, _, _ => none
  | _ + 1, [], _ => none
  | fuel + 1, c :: cs, acc =>
    if c == '}' then some (.obj acc, cs)
    else if c == '"' then
      match parseStringBody (cs.length + 1) cs with
      | none => none
      | some (keyBody, rest1) =>
        match skipWs rest1 with
        | ':' :: rest2 =>
          match parseValue fuel rest2 with
          | none => none
          | some (v, rest3) =>
            let acc := objInsert acc (String.mk keyBody) v
            match skipWs rest3 with
            | ',' :: rest4 => parseObjMembers fuel (skipWs rest4) acc
            | '}' :: rest4 => some (.obj acc, rest4)
            | _ => none
        | _ => none
    else none

/-- Parse the elements of an array after `[` (whitespace skipped). -/
def parseArrElems : Nat → List Char → Option (Json × List Char)
  | 0, _ => none
  | _ + 1, [] => none
  | fuel + 1, c :: cs =>
    if c == ']' then some (.arr [], cs)
    else
      match parseArrElemsLoop fuel (c :: cs) with
      | some (elems, rest) => some (.arr elems, rest)
      | none => none

def parseArrElemsLoop : Nat → List Char → Option (List Json × List Char)
  | 0, _ => none
  | fuel + 1, input =>
    match parseValue fuel input with
    | none => none
    | some (v, rest) =>
      match skipWs rest with
      | ',' :: rest' =>
        match parseArrElemsLoop fuel rest' with
        | some (elems, rest'') => some (v :: elems, rest'')
        | none => none
      | ']' :: rest' => some ([v], rest')
      | _ => none

end

/-- Embedding of `serde_json::from_str::<serde_json::Value>`: parse one
value and require only whitespace to follow. -/
def jsonParse (s : String) : Option Json :=
  let cs := s.toList
  match parseValue (cs.length + 2) cs with
  | some (v, rest) => if (skipWs rest).isEmpty then some v else none
  | none => none

/-! ## Canonical stream events and per-request decoder state

`StreamEvent` is `crate::llm::types::StreamEvent` and
`ProtocolStreamState`/`ToolCallAccum` are `crate::llm::protocols`; those
modules are not part of the sources under verification, so the shapes
are modelled from the spec (§3 data model) and each use site in
`stream_handler.rs`.  `tool_calls` (a `HashMap` used only through
`get`/`entry`) becomes an association list, `emitted_tool_calls` (a
`HashSet` used only through `contains`/`insert`) a membership list. -/

inductive StreamEvent where
  | textStart
  | textDelta (text : String)
  | reasoningStart (id : String) (provider_metadata : Option Json)
  | reasoningDelta (id : String) (text : String) (provider_metadata : Option Json)
  | reasoningEnd (id : String)
  | toolCall (tool_call_id : String) (tool_name : String) (input : Json)
  | usage (input_tokens : Int) (output_tokens : Int) (total_tokens : Option Int)
      (cached_input_tokens : Option Int) (cache_creation_input_tokens : Option Int)
  | done (finish_reason : Option String)
  | error (message : String)

structure ToolCallAccum where
  tool_call_id : String
  tool_name : String
  arguments : String

structure ProtocolStreamState where
  tool_calls : List (String × ToolCallAccum) := []
  tool_call_order : List String := []
  emitted_tool_calls : List String := []
  pending_events : List StreamEvent := []
  text_started : Bool := false
  current_thinking_id : Option String := none
  finish_reason : Option String := none

/-- The `ProtocolStreamState::default()` built at request start. -/
def initState : ProtocolStreamState := {}

/-- `HashMap::get` on the `tool_calls` map. -/
def map_get (m : List (String × ToolCallAccum)) (k : String) : Option ToolCallAccum :=
  (m.find? (fun p => p.1 == k)).map (·.2)

/-- Store a value under a key: replaces the existing binding or appends a
new one.  Together with `map_get` this models the source's
`entry(k).or_insert_with(init)` followed by in-place mutation. -/
def map_put (m : List (String × ToolCallAccum)) (k : String) (v : ToolCallAccum) :
    List (String × ToolCallAccum) :=
  match m with
  | [] => [(k, v)]
  | p :: rest => if p.1 == k then (k, v) :: rest else p :: map_put rest k v

/-- `HashSet::insert` on `emitted_tool_calls` (membership list). -/
def setInsert (s : List String) (k : String) : List String :=
  if s.contains k then s else s ++ [k]

/-- Append one canonical event to the FIFO `pending_events` queue. -/
def push_event (st : ProtocolStreamState) (e : StreamEvent) : ProtocolStreamState :=
  { st with pending_events := st.pending_events ++ [e] }

/-- Shared `TextStart` dedup cursor: fire `TextStart` once per request
(`if !state.text_started { state.text_started = true; push TextStart }`). -/
def start_text_if_needed (st : ProtocolStreamState) : ProtocolStreamState :=
  if st.text_started then st
  else { (push_event st .textStart) with text_started := true }

/-- Pop the head of the pending queue
(`state.pending_events.get(0).cloned()` + `remove(0)`). -/
def dequeue_pending (st : ProtocolStreamState) :
    Option StreamEvent × ProtocolStreamState :=
  match st.pending_events with
  | [] => (none, st)
  | e :: rest => (some e, { st with pending_events := rest })

/-! ## OAuth/Codex protocol decoder (`stream_handler.rs` lines 1090-1555) -/

/-- `build_openai_oauth_tool_input`: empty argument string yields `{}`
only under `force`; valid JSON is used parsed; unparsable text is
string-wrapped only under `force`. -/
def build_openai_oauth_tool_input (arguments : String) (force : Bool) : Option Json :=
  if (strTrim arguments).isEmpty then
    if force then some (Json.obj []) else none
  else
    match jsonParse arguments with
    | some value => some value
    | none => if force then some (Json.str arguments) else none

/-- The new `tool_call_order` value after the shared ordering-update
block: `index`-directed sparse slot assignment (grow with empty
placeholders, fill a slot only when empty or already this id), or
append-if-absent when no index was given. -/
def new_tool_call_order (order : List String) (item_id : String)
    (index : Option Nat) : List String :=
  match index with
  | some order_index =>
      let order :=
        if order.length ≤ order_index then
          order ++ List.replicate (order_index + 1 - order.length) ""
        else order
      let slot := order.getD order_index ""
      if slot == "" || slot == item_id then order.set order_index item_id
      else order
  | none =>
      if order.contains item_id then order else order ++ [item_id]

/-- Shared ordering update, duplicated verbatim at three places in the
source (`output_item.added`, the delta handler and the done handler);
it only ever touches the `tool_call_order` field. -/
def update_tool_call_order (st : ProtocolStreamState) (item_id : String)
    (index : Option Nat) : ProtocolStreamState :=
  { st with tool_call_order :=
      new_tool_call_order st.tool_call_order item_id index }

/-- One iteration of the `emit_tool_calls` closure's loop body.  Besides
the updated state it reports the key when (and only when) a `ToolCall`
was pushed for it: in the source every push is immediately followed by
`emitted_tool_calls.insert(key)`, so the reported keys are exactly the
keys newly inserted into the emitted set. -/
def emit_tool_calls_step (force : Bool)
    (acc : ProtocolStreamState × List String) (key : String) :
    ProtocolStreamState × List String :=
  let (st, keys) := acc
  if st.emitted_tool_calls.contains key then acc
  else
    match map_get st.tool_calls key with
    | none => acc
    | some a =>
      if a.tool_name.isEmpty then acc
      else
        match build_openai_oauth_tool_input a.arguments force with
        | none => acc
        | some input_value =>
            ({ (push_event st (.toolCall a.tool_call_id a.tool_name input_value)) with
                emitted_tool_calls := setInsert st.emitted_tool_calls key },
             keys ++ [key])

/-- The `emit_tool_calls` closure: sweep the (snapshot of the) ordered
key list, emitting every not-yet-emitted accumulated call that passes
`build_openai_oauth_tool_input`. -/
def emit_tool_calls (force : Bool) (st : ProtocolStreamState) :
    ProtocolStreamState × List String :=
  st.tool_call_order.foldl (emit_tool_calls_step force) (st, [])

/-- `parse_openai_oauth_function_call_delta` (source lines 1441-1479). -/
def parse_openai_oauth_function_call_delta (payload : Json)
    (st : ProtocolStreamState) : ProtocolStreamState :=
  let item_id := (((payload.get "item_id").bind Json.asStr)).getD ""
  if item_id.isEmpty then st
  else
    let delta := (((payload.get "delta").bind Json.asStr)).getD ""
    let acc0 := (map_get st.tool_calls item_id).getD
      { tool_call_id := item_id, tool_name := "", arguments := "" }
    let acc :=
      if delta.isEmpty then acc0
      else { acc0 with arguments := acc0.arguments ++ delta }
    let st := { st with tool_calls := map_put st.tool_calls item_id acc }
    let index := (payload.get "index").bind Json.asU64
    update_tool_call_order st item_id index

/-- `parse_openai_oauth_function_call_done` (source lines 1481-1555).
The extra `List String` output reports the item id iff it was inserted
into `emitted_tool_calls` by this call (which coincides with returning
an event). -/
def parse_openai_oauth_function_call_done (payload : Json)
    (st : ProtocolStreamState) :
    Option StreamEvent × ProtocolStreamState × List String :=
  let item_id := (((payload.get "item_id").bind Json.asStr)).getD ""
  if item_id.isEmpty then (none, st, [])
  else if st.emitted_tool_calls.contains item_id then (none, st, [])
  else
    let name := (((payload.get "name").bind Json.asStr)).getD ""
    let args := (((payload.get "arguments").bind Json.asStr)).getD ""
    let acc0 := (map_get st.tool_calls item_id).getD
      { tool_call_id := item_id, tool_name := name, arguments := "" }
    let acc1 := if name.isEmpty then acc0 else { acc0 with tool_name := name }
    let acc := if args.isEmpty then acc1 else { acc1 with arguments := args }
    let st := { st with tool_calls := map_put st.tool_calls item_id acc }
    if (strTrim acc.tool_name).isEmpty then (none, st, [])
    else
      let index := (payload.get "index").bind Json.asU64
      let st := update_tool_call_order st item_id index
      let st := { st with emitted_tool_calls := setInsert st.emitted_tool_calls item_id }
      let input_value :=
        match build_openai_oauth_tool_input acc.arguments true with
        | some value => value
        | none => Json.obj []
      (some (.toolCall acc.tool_call_id acc.tool_name input_value), st, [item_id])

/-- The `output_item.added` handler body (source lines 1229-1284). -/
def handle_output_item_added (payload : Json) (st : ProtocolStreamState) :
    ProtocolStreamState :=
  match payload.get "item" with
  | none => st
  | some item =>
    if ((item.get "type").bind Json.asStr) == some "function_call" then
      let item_id := (((item.get "id").bind Json.asStr)).getD ""
      let call_id := (((item.get "call_id").bind Json.asStr)).getD ""
      let name := (((item.get "name").bind Json.asStr)).getD ""
      if item_id.isEmpty then st
      else
        let acc0 := (map_get st.tool_calls item_id).getD
          { tool_call_id := if call_id.isEmpty then item_id else call_id,
            tool_name := name, arguments := "" }
        let acc1 := if call_id.isEmpty then acc0 else { acc0 with tool_call_id := call_id }
        let acc := if name.isEmpty then acc1 else { acc1 with tool_name := name }
        let st := { st with tool_calls := map_put st.tool_calls item_id acc }
        let index := (item.get "index").bind Json.asU64
        update_tool_call_order st item_id index
    else st

/-- The OpenAI-compatible `chat.completion.chunk` branch (source lines
1145-1191). -/
def handle_chat_completion_chunk (payload : Json) (st : ProtocolStreamState) :
    ProtocolStreamState :=
  let st :=
    match payload.get "usage" with
    | some u =>
        let input_tokens := (((u.get "prompt_tokens").bind Json.asI64)).getD 0
        let output_tokens := (((u.get "completion_tokens").bind Json.asI64)).getD 0
        let total_tokens := (u.get "total_tokens").bind Json.asI64
        push_event st (.usage input_tokens output_tokens total_tokens none none)
    | none => st
  match (payload.get "choices").bind Json.asArray with
  | none => st
  | some choices =>
    match choices.head? with
    | none => st
    | some choice =>
      let st :=
        match (choice.get "finish_reason").bind Json.asStr with
        | some fr => { st with finish_reason := some fr }
        | none => st
      match choice.get "delta" with
      | none => st
      | some delta =>
        let st := start_text_if_needed st
        match (delta.get "content").bind Json.asStr with
        | some content =>
            if content.isEmpty then st else push_event st (.textDelta content)
        | none => st

/-- Scan of one `response.output[].content[]` part in the
`response.completed` handler (source lines 1386-1408). -/
def completed_scan_part (st : ProtocolStreamState) (part : Json) :
    ProtocolStreamState :=
  let st :=
    match (part.get "text").bind Json.asStr with
    | some text => push_event (start_text_if_needed st) (.textDelta text)
    | none => st
  match (part.get "delta").bind Json.asStr with
  | some delta =>
      if delta.isEmpty then st
      else push_event (start_text_if_needed st) (.textDelta delta)
  | none => st

/-- The `response.completed` handler (source lines 1362-1416). -/
def handle_response_completed (payload : Json) (st : ProtocolStreamState) :
    ProtocolStreamState :=
  let st :=
    match payload.get "response" with
    | none => st
    | some response =>
      let st :=
        match response.get "usage" with
        | some u =>
            let input_tokens := (((u.get "input_tokens").bind Json.asI64)).getD 0
            let output_tokens := (((u.get "output_tokens").bind Json.asI64)).getD 0
            let total_tokens := (u.get "total_tokens").bind Json.asI64
            push_event st (.usage input_tokens output_tokens total_tokens none none)
        | none => st
      match (response.get "output").bind Json.asArray with
      | none => st
      | some output =>
          output.foldl (fun st item =>
            match (item.get "content").bind Json.asArray with
            | some content => content.foldl completed_scan_part st
            | none => st) st
  push_event st (.done none)

/-- Dispatch-key resolution (source lines 1193-1211): explicit SSE event
name, else `data.type`, else `data.event`, else `data.kind`. -/
def resolve_event_type (event_type : Option String) (payload : Json) :
    Option String :=
  match event_type with
  | some v => some v
  | none =>
    match (payload.get "type").bind Json.asStr with
    | some v => some v
    | none =>
      match (payload.get "event").bind Json.asStr with
      | some v => some v
      | none => (payload.get "kind").bind Json.asStr

/-- The decoder body after JSON parsing (source lines 1144-1438): mutate
the state per event type, then pop the head of the pending queue as the
returned event.  The `List String` output is the ghost record of item
ids for which a `ToolCall` event was pushed during this call (each such
push in the source is paired with inserting that id into
`emitted_tool_calls`). -/
def dispatch_event (et : String) (payload : Json) (st : ProtocolStreamState) :
    ProtocolStreamState × List String :=
  match et with
  | "response.created" | "response.in_progress" => (st, [])
  | "response.output_item.added" => (handle_output_item_added payload st, [])
  | "response.content_part.added" =>
      (match (payload.get "part").bind (fun part => (part.get "text").bind Json.asStr) with
       | some text => push_event (start_text_if_needed st) (.textDelta text)
       | none => st, [])
  | "response.output_text.delta" =>
      let st := start_text_if_needed st
      (match (payload.get "delta").bind Json.asStr with
       | some delta => if delta.isEmpty then st else push_event st (.textDelta delta)
       | none => st, [])
  | "response.output_text.done" => (st, [])
  | "response.function_call_arguments.delta" =>
      let st := parse_openai_oauth_function_call_delta payload st
      emit_tool_calls false st
  | "response.function_call_arguments.done" =>
      let (evOpt, st, gk) := parse_openai_oauth_function_call_done payload st
      let st := match evOpt with
        | some e => push_event st e
        | none => st
      let (st, keys) := emit_tool_calls true st
      (st, gk ++ keys)
  | "response.reasoning_text.delta" =>
      let id := (((payload.get "item_id").bind Json.asStr)).getD "default"
      let delta := (((payload.get "delta").bind Json.asStr)).getD ""
      let st :=
        if st.current_thinking_id == some id then st
        else
          push_event { st with current_thinking_id := some id }
            (.reasoningStart id none)
      (if delta.isEmpty then st
       else push_event st (.reasoningDelta id delta none), [])
  | "response.reasoning_text.done" =>
      let id := (((payload.get "item_id").bind Json.asStr)).getD "default"
      (push_event st (.reasoningEnd id), [])
  | "response.completed" => (handle_response_completed payload st, [])
  | "response.failed" =>
      let message :=
        ((payload.get "response").bind (fun r =>
          (r.get "error").bind (fun e =>
            (e.get "message").bind Json.asStr))).getD "Response failed"
      (push_event st (.error message), [])
  | _ => (st, [])

def parse_oauth_payload (event_type : Option String) (payload : Json)
    (st : ProtocolStreamState) :
    Option StreamEvent × ProtocolStreamState × List String :=
  if (payload.get "object").bind Json.asStr == some "chat.completion.chunk" then
    let st := handle_chat_completion_chunk payload st
    let (ev, st) := dequeue_pending st
    (ev, st, [])
  else
    match resolve_event_type event_type payload with
    | none => (none, st, [])
    | some et =>
      let (st, keys) := dispatch_event et payload st
      let (ev, st) := dequeue_pending st
      (ev, st, keys)

/-- Error message standing for the `serde_json` parse-error text
(`e.to_string()`; the exact wording is irrelevant to every claim). -/
def jsonErrorMessage : String := "invalid JSON"

/-- `parse_openai_oauth_event` (source lines 1111-1439): parse the frame
data as JSON — any parse failure is returned as `Err` before any event
dispatch — then run the payload dispatcher. -/
def parse_openai_oauth_event (event_type : Option String) (data : String)
    (st : ProtocolStreamState) :
    Except String (Option StreamEvent × ProtocolStreamState × List String) :=
  match jsonParse data with
  | none => .error jsonErrorMessage
  | some payload => .ok (parse_oauth_payload event_type payload st)

/-! ## SSE frame decoding (`stream_handler.rs` lines 788-821) -/

/-- Position of the first occurrence of `pat` as a contiguous sub-list
(`buf.windows(n).position(|w| w == pat)`; also used for `str::contains`
on substrings). -/
def firstSubPos {α : Type} [BEq α] (pat : List α) : List α → Option Nat
  | [] => none
  | b :: tl =>
      if pat.isPrefixOf (b :: tl) then some 0
      else (firstSubPos pat tl).map (· + 1)

/-- `find_sse_delimiter`: check for `\r\n\r\n` (4 bytes) anywhere first;
only if absent check for `\n\n` (2 bytes). -/
def find_sse_delimiter (buf : List Nat) : Option (Nat × Nat) :=
  match firstSubPos [13, 10, 13, 10] buf with
  | some pos => some (pos, 4)
  | none =>
    match firstSubPos [10, 10] buf with
    | some pos => some (pos, 2)
    | none => none

structure SseEvent where
  event : Option String
  data : String

/-- Rust `str::lines`: split at `\n`, strip one `\r` before each `\n`,
final line ending optional (a trailing `\r` on an unterminated last
line is kept). -/
def rustLines (s : String) : List String :=
  let segs := splitOnChar '\n' s
  let stripCr := fun (l : String) =>
    match l.data.getLast? with
    | some c => if c == '\r' then String.mk l.data.dropLast else l
    | none => l
  let lastSeg := segs.getLast?.getD ""
  segs.dropLast.map stripCr ++ (if lastSeg.isEmpty then [] else [lastSeg])

/-- Rust `str::strip_prefix` specialized to string patterns. -/
def stripPre (p s : String) : Option String :=
  if p.data.isPrefixOf s.data then some (String.mk (s.data.drop p.data.length))
  else none

/-- `parse_sse_event`: last `event:` line wins; every `data:` line
contributes (with at most one leading space removed); data lines joined
with `\n`; zero data lines means no event. -/
def parse_sse_event (raw : String) : Option SseEvent :=
  let step := fun (acc : Option String × List String) (line : String) =>
    match stripPre "event:" line with
    | some rest => (some (strTrim rest), acc.2)
    | none =>
      match stripPre "data:" line with
      | some rest =>
          let d :=
            match rest.data with
            | ' ' :: ds => String.mk ds
            | _ => rest
          (acc.1, acc.2 ++ [d])
      | none => acc
  let (event, data_lines) := (rustLines raw).foldl step (none, [])
  if data_lines.isEmpty then none
  else some { event := event, data := joinSep "\n" data_lines }

/-! ## UTF-8 (`String::from_utf8` validation / encoding for byte-level
modelling of the HTTP chunk stream) -/

def utf8Cont (b : Nat) : Bool := 0x80 ≤ b && b ≤ 0xBF

/-- Strict UTF-8 decoding of a byte list (rejects overlong forms,
surrogates and values above `0x10FFFF`, as `String::from_utf8` does). -/
def utf8DecodeGo : Nat → List Nat → Option (List Char)
  | _, [] => some []
  | 0, _ :: _ => none
  | fuel + 1, b :: rest =>
    if b < 0x80 then
      (utf8DecodeGo fuel rest).map (Char.ofNat b :: ·)
    else if 0xC2 ≤ b && b ≤ 0xDF then
      match rest with
      | c1 :: rest' =>
          if utf8Cont c1 then
            (utf8DecodeGo fuel rest').map
              (Char.ofNat ((b - 0xC0) * 64 + (c1 - 0x80)) :: ·)
          else none
      | _ => none
    else if 0xE0 ≤ b && b ≤ 0xEF then
      match rest with
      | c1 :: c2 :: rest' =>
          let lo1 := if b == 0xE0 then 0xA0 else 0x80
          let hi1 := if b == 0xED then 0x9F else 0xBF
          if lo1 ≤ c1 && c1 ≤ hi1 && utf8Cont c2 then
            (utf8DecodeGo fuel rest').map
              (Char.ofNat ((b - 0xE0) * 4096 + (c1 - 0x80) * 64 + (c2 - 0x80)) :: ·)
          else none
      | _ => none
    else if 0xF0 ≤ b && b ≤ 0xF4 then
      match rest with
      | c1 :: c2 :: c3 :: rest' =>
          let lo1 := if b == 0xF0 then 0x90 else 0x80
          let hi1 := if b == 0xF4 then 0x8F else 0xBF
          if lo1 ≤ c1 && c1 ≤ hi1 && utf8Cont c2 && utf8Cont c3 then
            (utf8DecodeGo fuel rest').map
              (Char.ofNat ((b - 0xF0) * 262144 + (c1 - 0x80) * 4096 +
                (c2 - 0x80) * 64 + (c3 - 0x80)) :: ·)
          else none
      | _ => none
    else none

def utf8Decode (bs : List Nat) : Option String :=
  (utf8DecodeGo bs.length bs).map String.mk

/-- UTF-8 encoding of one character. -/
def charUtf8 (c : Char) : List Nat :=
  let n := c.toNat
  if n < 0x80 then [n]
  else if n < 0x800 then [0xC0 + n / 64, 0x80 + n % 64]
  else if n < 0x10000 then
    [0xE0 + n / 4096, 0x80 + (n / 64) % 64, 0x80 + n % 64]
  else
    [0xF0 + n / 262144, 0x80 + (n / 4096) % 64, 0x80 + (n / 64) % 64,
     0x80 + n % 64]

/-- UTF-8 bytes of a string (used to state byte-level scenarios). -/
def strBytes (s : String) : List Nat :=
  s.data.foldr (fun c acc => charUtf8 c ++ acc) []

/-! ## Stream orchestrator read loop (`stream_completion`, lines 336-709)

`stream_completion_events` models the canonical per-request event
channel from the point the HTTP response body starts streaming: the
list of `StreamEvent`s passed to `window.emit` on the request's event
name, in order, together with the function's success flag (`Ok`/`Err`).
Tracing, logging, the transcript string and the test recorder are
side-effect-free observers and are omitted. -/

def utf8ErrorMessage : String := "Invalid UTF-8 in SSE event"

def streamTimeoutMessage : String :=
  "Stream timeout - no data received for 60 seconds"

/-- One `stream.next()` outcome: a byte chunk, a transport error, or the
60-second inter-chunk timeout firing. -/
inductive ChunkResult where
  | ok (bytes : List Nat)
  | err (message : String)
  | timeout

/-- Result of the inner frame-extraction `while let` loop. -/
inductive InnerResult where
  | cont (buffer : List Nat) (st : ProtocolStreamState)
  | abort

/-- Exit of one frame's handling inside the inner loop. -/
inductive FrameOutcome where
  | fatal
  | doneBreak (st : ProtocolStreamState)
  | next (st : ProtocolStreamState)

def isDoneEvent : StreamEvent → Bool
  | .done _ => true
  | _ => false

def isTerminalEvent : StreamEvent → Bool
  | .done _ => true
  | .error _ => true
  | _ => false

/-- Handling of one parsed SSE frame (source lines 496-595): run the
decoder; a decode `Err` emits one `Error` and returns the error; an
event is emitted followed by the drained pending queue; a `Done` event
breaks the (inner) loop. -/
def handle_frame (ev : Option String) (data : String)
    (st : ProtocolStreamState) : List StreamEvent × FrameOutcome :=
  match parse_openai_oauth_event ev data st with
  | .error e => ([.error e], .fatal)
  | .ok (some event, st', _) =>
      let evs := event :: st'.pending_events
      let st'' := { st' with pending_events := [] }
      if isDoneEvent event then (evs, .doneBreak st'') else (evs, .next st'')
  | .ok (none, st', _) =>
      (st'.pending_events, .next { st' with pending_events := [] })

/-- The inner `while let Some((idx, delimiter_len)) = find_sse_delimiter`
loop (source lines 439-603).  Fuel-indexed: every iteration consumes at
least two buffer bytes, so the initial fuel `buf.length` is never
exhausted. -/
def process_buffer_go : Nat → List Nat → ProtocolStreamState →
    List StreamEvent × InnerResult
  | 0, buf, st => ([], .cont buf st)
  | fuel + 1, buf, st =>
    match find_sse_delimiter buf with
    | none => ([], .cont buf st)
    | some (idx, delimiter_len) =>
      let event_bytes := buf.take idx
      let rest := buf.drop (idx + delimiter_len)
      match utf8Decode event_bytes with
      | none => ([.error utf8ErrorMessage], .abort)
      | some event_str =>
        match parse_sse_event event_str with
        | none => process_buffer_go fuel rest st
        | some parsed =>
          match handle_frame parsed.event parsed.data st with
          | (evs, .fatal) => (evs, .abort)
          | (evs, .doneBreak st') => (evs, .cont rest st')
          | (evs, .next st') =>
              let (more, r) := process_buffer_go fuel rest st'
              (evs ++ more, r)

def process_buffer (buf : List Nat) (st : ProtocolStreamState) :
    List StreamEvent × InnerResult :=
  process_buffer_go buf.length buf st

/-- The outer chunk loop plus the final unconditional `Done` emission
(source lines 346-604 and 698-703).  Returns the emitted canonical
event sequence and `true` for `Ok`, `false` for an `Err` return. -/
def stream_completion_events : List ChunkResult → List Nat →
    ProtocolStreamState → List StreamEvent × Bool
  | [], _, st => ([.done st.finish_reason], true)
  | .timeout :: _, _, _ => ([.error streamTimeoutMessage], false)
  | .err m :: _, _, _ => ([.error ("Stream error: " ++ m)], false)
  | .ok bytes :: rest, buf, st =>
    if bytes.isEmpty then stream_completion_events rest buf st
    else
      match process_buffer (buf ++ bytes) st with
      | (evs, .abort) => (evs, false)
      | (evs, .cont buf' st') =>
          let (more, okFlag) := stream_completion_events rest buf' st'
          (evs ++ more, okFlag)

/-- Canonical event sequence of a whole request body, starting from the
empty buffer and `ProtocolStreamState::default()`. -/
def stream_request_events (chunks : List ChunkResult) :
    List StreamEvent × Bool :=
  stream_completion_events chunks [] initState

/-! ## Frame-level and payload-level decoder drivers

These mirror how the orchestrator consumes the decoder for a sequence
of already-extracted frames: each call's returned event (if any) is
followed by the drained pending queue; a decode error aborts the run
(no later frame is decoded).  The third component accumulates the ghost
record of item ids whose `ToolCall` was pushed. -/

def run_oauth_frames : List (Option String × String) → ProtocolStreamState →
    ProtocolStreamState × List StreamEvent × List String
  | [], st => (st, [], [])
  | (ev, data) :: rest, st =>
    match parse_openai_oauth_event ev data st with
    | .error _ => (st, [], [])
    | .ok (evOpt, st', keys) =>
        let evs := (match evOpt with | some e => [e] | none => []) ++ st'.pending_events
        let st'' := { st' with pending_events := [] }
        let (stF, evsF, keysF) := run_oauth_frames rest st''
        (stF, evs ++ evsF, keys ++ keysF)

def run_oauth_payloads : List (Option String × Json) → ProtocolStreamState →
    ProtocolStreamState × List StreamEvent × List String
  | [], st => (st, [], [])
  | (ev, payload) :: rest, st =>
    let (evOpt, st', keys) := parse_oauth_payload ev payload st
    let evs := (match evOpt with | some e => [e] | none => []) ++ st'.pending_events
    let st'' := { st' with pending_events := [] }
    let (stF, evsF, keysF) := run_oauth_payloads rest st''
    (stF, evs ++ evsF, keys ++ keysF)

/-! ## Model & provider resolver
(`model_resolver.rs`, `model_registry.rs`)

The configuration structs (`crate::llm::types`) are not under the
sources being verified; their shapes are modelled from the spec (§3,
§4.2) and the field accesses / test constructions in the two files.
`HashMap`s keyed by strings become association lists.  The async
`load_*` calls fetch configuration snapshots from the database; the
embedded functions take those snapshots as parameters. -/

inductive AuthType where
  | noAuth
  | apiKey
  | bearer
  | oauthBearer
  | talkCodyJwt
deriving DecidableEq

structure ProviderConfig where
  id : String
  auth_type : AuthType
  supports_oauth : Bool

structure ProviderRegistry where
  providers : List ProviderConfig

/-- `ProviderRegistry::provider(id)`. -/
def ProviderRegistry.provider (reg : ProviderRegistry) (id : String) :
    Option ProviderConfig :=
  reg.providers.find? (fun p => p.id == id)

structure CustomProviderConfig where
  name : String
  api_key : String
  enabled : Bool

structure CustomProvidersConfiguration where
  providers : List (String × CustomProviderConfig)

def CustomProvidersConfiguration.get (c : CustomProvidersConfiguration)
    (id : String) : Option CustomProviderConfig :=
  (c.providers.find? (fun p => p.1 == id)).map (·.2)

/-- Per-model configuration (fields read by the embedded functions:
display name, declared provider list, input price string, context
length). -/
structure ModelConfig where
  name : String
  providers : List String
  input_pricing : Option String
  context_length : Option Nat

structure ModelsConfiguration where
  models : List (String × ModelConfig)

def ModelsConfiguration.get (c : ModelsConfiguration) (key : String) :
    Option ModelConfig :=
  (c.models.find? (fun p => p.1 == key)).map (·.2)

def ModelsConfiguration.containsKey (c : ModelsConfiguration) (key : String) :
    Bool :=
  (c.models.find? (fun p => p.1 == key)).isSome

/-- Credential map (API keys merged with OAuth tokens). -/
def ApiKeyMap := List (String × String)

def apiKeyGet (m : List (String × String)) (k : String) : Option String :=
  (m.find? (fun p => p.1 == k)).map (·.2)

/-- `ModelRegistry::provider_available` (model_registry.rs lines
226-303): custom providers need `enabled` plus a non-blank key; builtin
providers are available per auth type or a non-blank credential. -/
def provider_available (provider_id : String)
    (api_keys : List (String × String)) (registry : ProviderRegistry)
    (custom_providers : CustomProvidersConfiguration) : Bool :=
  match custom_providers.get provider_id with
  | some custom => custom.enabled && !(strTrim custom.api_key).isEmpty
  | none =>
    match registry.provider provider_id with
    | none => false
    | some provider =>
      if provider.auth_type = AuthType.noAuth then
        if provider_id == "ollama" || provider_id == "lmstudio" then
          (apiKeyGet api_keys provider_id).map (fun v => v == "enabled") |>.getD false
        else true
      else if provider.auth_type = AuthType.talkCodyJwt then true
      else if (apiKeyGet api_keys provider_id).map
          (fun v => !(strTrim v).isEmpty) |>.getD false then true
      else if provider.supports_oauth then
        (apiKeyGet api_keys provider_id).map
          (fun t => !(strTrim t).isEmpty) |>.getD false
      else false

/-- `ModelRegistry::get_model_provider` (model_registry.rs lines
185-224): explicit `key@provider` splits without validation; a known
model key iterates its declared provider list in declared order; a
bare unknown identifier falls back to registry order and then to any
enabled custom provider. -/
def get_model_provider (model_identifier : String)
    (api_keys : List (String × String)) (registry : ProviderRegistry)
    (custom_providers : CustomProvidersConfiguration)
    (config : ModelsConfiguration) : Except String (String × String) :=
  match splitOnChar '@' model_identifier with
  | [k, p] => .ok (k, p)
  | _ =>
    match config.get model_identifier with
    | some model_cfg =>
      match model_cfg.providers.find?
          (fun pid => provider_available pid api_keys registry custom_providers) with
      | some pid => .ok (model_identifier, pid)
      | none => .error ("No available provider for model " ++ model_identifier)
    | none =>
      match registry.providers.find?
          (fun p => provider_available p.id api_keys registry custom_providers) with
      | some p => .ok (model_identifier, p.id)
      | none =>
        match custom_providers.providers.find? (fun p => p.2.enabled) with
        | some p => .ok (model_identifier, p.1)
        | none => .error ("No available provider for model " ++ model_identifier)

/-- `try_resolve_model` (model_resolver.rs lines 32-67): a known model
key goes through `get_model_provider`; an identifier containing `@` is
accepted iff its model part is a known model key and its provider part
exists in the registry; anything else falls through (`None`). -/
def try_resolve_model (models : ModelsConfiguration)
    (api_map : List (String × String))
    (custom_providers : CustomProvidersConfiguration)
    (registry : ProviderRegistry) (model_identifier : String) :
    Option String :=
  if models.containsKey model_identifier then
    match get_model_provider model_identifier api_map registry
        custom_providers models with
    | .ok (model_key, provider_id) => some (model_key ++ "@" ++ provider_id)
    | .error _ => none
  else if strContainsChar model_identifier '@' then
    match splitOnChar '@' model_identifier with
    | [model_key, provider_id] =>
        if models.containsKey model_key && (registry.provider provider_id).isSome then
          some (model_key ++ "@" ++ provider_id)
        else none
    | _ => none
  else none

/-- Read-only projection produced by `compute_available_models` (the
availability computation itself iterates `HashMap`s and reads the
database, so the embedded fallback strategies take the available set as
a parameter, per spec §3 `AvailableModel`). -/
structure AvailableModel where
  key : String
  name : String
  provider : String
  input_pricing : Option String

/-- `resolve_any_available` (model_resolver.rs lines 69-79). -/
def resolve_any_available (available : List AvailableModel) :
    Except String String :=
  match available.head? with
  | some model => .ok (model.key ++ "@" ++ model.provider)
  | none => .error "No available model for the requested operation"

/-- Extended price domain: the result of
`input_pricing.parse::<f64>().ok().unwrap_or(f64::INFINITY)`.  A parse
failure or an absent price is `+infinity`.  (`f64` NaN cannot arise
from the decimal price strings in scope.) -/
inductive FPrice where
  | val (q : Rat)
  | inf
deriving DecidableEq

/-- `PartialOrd::partial_cmp` on the mapped prices followed by
`unwrap_or(Ordering::Equal)`. -/
def cmpFPrice : FPrice → FPrice → Ordering
  | .val a, .val b => compare a b
  | .val _, .inf => .lt
  | .inf, .val _ => .gt
  | .inf, .inf => .eq

/-- Rust `f64::from_str` restricted to finite decimal literals:
optional sign, digits around an optional point (at least one digit),
optional exponent.  The `inf`/`NaN` keyword forms are not modelled
(price strings are plain decimals; an unparsed string maps to the same
`+infinity` anyway). -/
def parse_f64 (s : String) : Option Rat :=
  let cs := s.toList
  let (neg, cs1) :=
    match cs with
    | '-' :: rest => (true, rest)
    | '+' :: rest => (false, rest)
    | _ => (false, cs)
  let (ids, cs2) := takeDigits cs1
  let fracStep : Option (List Char × List Char) :=
    match cs2 with
    | '.' :: rest =>
        let (fds, rest') := takeDigits rest
        if ids.isEmpty && fds.isEmpty then none else some (fds, rest')
    | _ => if ids.isEmpty then none else some ([], cs2)
  match fracStep with
  | none => none
  | some (fds, cs3) =>
    let expStep : Option (Bool × List Char × List Char) :=
      match cs3 with
      | e :: rest =>
          if e == 'e' || e == 'E' then
            let (esign, rest1) :=
              match rest with
              | '+' :: r => (false, r)
              | '-' :: r => (true, r)
              | _ => (false, rest)
            let (eds, rest2) := takeDigits rest1
            if eds.isEmpty then none else some (esign, eds, rest2)
          else none
      | [] => some (false, [], [])
    match expStep with
    | none => none
    | some (eneg, eds, cs4) =>
      if cs4.isEmpty then
        let mantissa : Int := Int.ofNat (digitsToNat (ids ++ fds))
        let mantissa := if neg then -mantissa else mantissa
        let exp10 : Int :=
          (if eneg then -(Int.ofNat (digitsToNat eds))
           else Int.ofNat (digitsToNat eds)) - Int.ofNat fds.length
        let scale : Rat :=
          if 0 ≤ exp10 then ((10 : Rat) ^ exp10.toNat)
          else 1 / ((10 : Rat) ^ (-exp10).toNat)
        some ((mantissa : Rat) * scale)
      else none

structure ModelFallbackInfo where
  model_key : String
  provider_id : String
  context_length : Nat
  input_price : FPrice

/-- Stable insertion into a sorted list: the new element goes after
every existing element not strictly greater than it (models the
stability of Rust `slice::sort_by`). -/
def insertCmp (cmp : ModelFallbackInfo → ModelFallbackInfo → Ordering)
    (x : ModelFallbackInfo) : List ModelFallbackInfo → List ModelFallbackInfo
  | [] => [x]
  | y :: ys =>
      if cmp x y == .gt then y :: insertCmp cmp x ys else x :: y :: ys

/-- Stable sort by a comparator (Rust `slice::sort_by`). -/
def sortByCmp (cmp : ModelFallbackInfo → ModelFallbackInfo → Ordering) :
    List ModelFallbackInfo → List ModelFallbackInfo
  | [] => []
  | x :: xs => insertCmp cmp x (sortByCmp cmp xs)

/-- The comparator passed to `candidates.sort_by` (model_resolver.rs
lines 111-117): `context_length` descending, ties by `input_price`
ascending. -/
def compaction_cmp (a b : ModelFallbackInfo) : Ordering :=
  match compare b.context_length a.context_length with
  | .eq => cmpFPrice a.input_price b.input_price
  | other => other

/-- The candidate projection inside `resolve_compaction_fallback`:
unknown context length becomes `0`, unknown/unparsable input price
becomes `+infinity`. -/
def compaction_candidate (models_config : ModelsConfiguration)
    (model : AvailableModel) : ModelFallbackInfo :=
  { model_key := model.key
    provider_id := model.provider
    context_length :=
      ((models_config.get model.key).bind (·.context_length)).getD 0
    input_price :=
      match model.input_pricing.bind parse_f64 with
      | some q => .val q
      | none => .inf }

/-- `resolve_compaction_fallback` (model_resolver.rs lines 81-124). -/
def resolve_compaction_fallback (models_config : ModelsConfiguration)
    (available : List AvailableModel) : Except String String :=
  let candidates := available.map (compaction_candidate models_config)
  let candidates := sortByCmp compaction_cmp candidates
  match candidates.head? with
  | some best => .ok (best.model_key ++ "@" ++ best.provider_id)
  | none => .error "No available model for compaction"

inductive FallbackStrategy where
  | anyAvailable
  | compaction

/-- `resolve_model_identifier` (model_resolver.rs lines 13-30): a
preferred identifier that `try_resolve_model` accepts is returned;
otherwise the fallback strategy decides. -/
def resolve_model_identifier (models : ModelsConfiguration)
    (api_map : List (String × String))
    (custom_providers : CustomProvidersConfiguration)
    (registry : ProviderRegistry) (available : List AvailableModel)
    (preferred : Option String) (strategy : FallbackStrategy) :
    Except String String :=
  let fallback :=
    match strategy with
    | .anyAvailable => resolve_any_available available
    | .compaction => resolve_compaction_fallback models available
  match preferred with
  | some model =>
    match try_resolve_model models api_map custom_providers registry model with
    | some resolved => .ok resolved
    | none => fallback
  | none => fallback

/-! ## OAuth/Codex request body builder
(`build_openai_oauth_request`, stream_handler.rs lines 840-1087)

Canonical message types (`crate::llm::types`, not under the verified
sources) are modelled from the spec §3 and the constructions in the
repository's tests. -/

inductive ContentPart where
  | text (text : String)
  | reasoning (text : String)
  | image (image : String)
  | toolCall (tool_call_id : String) (tool_name : String) (input : Json)
  | toolResult (tool_call_id : String) (tool_name : String) (output : Json)

inductive MessageContent where
  | text (s : String)
  | parts (ps : List ContentPart)

inductive Message where
  | system (content : String)
  | user (content : MessageContent)
  | assistant (content : MessageContent)
  | tool (content : List ContentPart)

structure ToolDefinition where
  name : String
  description : String
  parameters : Json

structure StreamTextRequest where
  messages : List Message
  tools : Option (List ToolDefinition) := none
  temperature : Option Rat := none
  top_p : Option Rat := none
  top_k : Option Int := none
  max_tokens : Option Int := none

def escapeJsonChar (c : Char) : String :=
  if c == '"' then "\\\""
  else if c == '\\' then "\\\\"
  else if c == '\n' then "\\n"
  else if c == '\r' then "\\r"
  else if c == '\t' then "\\t"
  else if c.toNat == 8 then "\\b"
  else if c.toNat == 12 then "\\f"
  else if c.toNat < 0x20 then
    let d := c.toNat
    let hex := fun (n : Nat) =>
      String.singleton (if n < 10 then Char.ofNat ('0'.toNat + n)
        else Char.ofNat ('a'.toNat + n - 10))
    "\\u00" ++ hex (d / 16) ++ hex (d % 16)
  else String.singleton c

def escapeJsonString (s : String) : String :=
  "\"" ++ String.join (s.data.map escapeJsonChar) ++ "\""

mutual

/-- `serde_json` `Value::to_string` (compact form).  Float formatting
is approximated (no claim inspects rendered floats). -/
def renderJson : Json → String
  | .null => "null"
  | .bool b => if b then "true" else "false"
  | .int n => toString n
  | .float q => toString q.num ++ "e-" ++ toString q.den
  | .str s => escapeJsonString s
  | .arr elems => "[" ++ renderJsonList elems ++ "]"
  | .obj members => "\x7b" ++ renderJsonMembers members ++ "\x7d"

def renderJsonList : List Json → String
  | [] => ""
  | [x] => renderJson x
  | x :: rest => renderJson x ++ "," ++ renderJsonList rest

def renderJsonMembers : List (String × Json) → String
  | [] => ""
  | [m] => escapeJsonString m.1 ++ ":" ++ renderJson m.2
  | m :: rest =>
      escapeJsonString m.1 ++ ":" ++ renderJson m.2 ++ "," ++
        renderJsonMembers rest

end

def Json.isObject : Json → Bool | .obj _ => true | _ => false
def Json.isArray : Json → Bool | .arr _ => true | _ => false
def Json.isString : Json → Bool | .str _ => true | _ => false
def Json.isNumber : Json → Bool | .int _ => true | .float _ => true | _ => false
def Json.isBoolean : Json → Bool | .bool _ => true | _ => false
def Json.isNull : Json → Bool | .null => true | _ => false

/-- Substring containment, Rust `str::contains(&str)`. -/
def strContainsSub (s sub : String) : Bool :=
  (firstSubPos sub.toList s.toList).isSome

/-- The `normalize_model` helper inside `build_openai_oauth_request`. -/
def normalize_model (model_name : String) : String :=
  let model_id :=
    if strContainsChar model_name '/' then
      ((splitOnChar '/' model_name).getLast?).getD model_name
    else model_name
  let normalized := String.mk (model_id.data.map Char.toLower)
  if strContainsSub normalized "gpt-5.1-codex-max" ||
      strContainsSub normalized "gpt 5.1 codex max" then
    "gpt-5.1-codex-max"
  else "gpt-5.2-codex"

/-- The `tool_output_to_string` helper. -/
def tool_output_to_string (output : Json) : String :=
  match (output.get "value").bind Json.asStr with
  | some value => value
  | none => renderJson output

def mkInputTextItem (text : String) : Json :=
  Json.obj [("type", .str "input_text"), ("text", .str text)]

def mkInputImageItem (image : String) : Json :=
  Json.obj [("type", .str "input_image"),
    ("image_url", .str ("data:image/png;base64," ++ image))]

def mkMessageItem (role : String) (content : List Json) : Json :=
  Json.obj [("type", .str "message"), ("role", .str role),
    ("content", .arr content)]

/-- The `push_message_item` helper: flush pending parts into a message
item (no item for an empty run). -/
def push_message_item (role : String) (parts : List Json)
    (input_items : List Json) : List Json × List Json :=
  if parts.isEmpty then (parts, input_items)
  else ([], input_items ++ [mkMessageItem role parts])

/-- The `to_input_content` helper. -/
def to_input_content (content : MessageContent) : List Json :=
  match content with
  | .text text => if (strTrim text).isEmpty then [] else [mkInputTextItem text]
  | .parts parts =>
      parts.foldl (fun mapped part =>
        match part with
        | .text text =>
            if (strTrim text).isEmpty then mapped else mapped ++ [mkInputTextItem text]
        | .reasoning text =>
            if (strTrim text).isEmpty then mapped else mapped ++ [mkInputTextItem text]
        | .image image => mapped ++ [mkInputImageItem image]
        | .toolCall _ _ _ => mapped
        | .toolResult _ _ _ => mapped) []

/-- The `append_assistant_items` helper: text/reasoning/image parts
accumulate into a pending message run which a tool call flushes before
adding its own `function_call` item. -/
def append_assistant_items (content : MessageContent)
    (input_items : List Json) : List Json :=
  match content with
  | .text _ =>
      let content_parts := to_input_content content
      if content_parts.isEmpty then input_items
      else input_items ++ [mkMessageItem "assistant" content_parts]
  | .parts parts =>
      let step := fun (acc : List Json × List Json) (part : ContentPart) =>
        let (pending_parts, items) := acc
        match part with
        | .text text =>
            if (strTrim text).isEmpty then acc
            else (pending_parts ++ [mkInputTextItem text], items)
        | .reasoning text =>
            if (strTrim text).isEmpty then acc
            else (pending_parts ++ [mkInputTextItem text], items)
        | .image image => (pending_parts ++ [mkInputImageItem image], items)
        | .toolCall tool_call_id tool_name input =>
            let (pending_parts, items) :=
              push_message_item "assistant" pending_parts items
            if (strTrim tool_name).isEmpty then (pending_parts, items)
            else
              let arguments :=
                if input.isObject || input.isArray || input.isString ||
                    input.isNumber || input.isBoolean || input.isNull then
                  renderJson input
                else "\x7b\x7d"
              (pending_parts, items ++
                [Json.obj [("type", .str "function_call"),
                  ("call_id", .str tool_call_id), ("name", .str tool_name),
                  ("arguments", .str arguments)]])
        | .toolResult _ _ _ => acc
      let (pending_parts, items) := parts.foldl step ([], input_items)
      (push_message_item "assistant" pending_parts items).2

/-- Modelled from the spec: the fixed base Codex instruction text
compiled in via `include_str!("src/services/codex-instructions.md")` —
that file is not among the sources; only its being a request-independent
constant matters to the claims. -/
def codexInstructions : String := "<base codex instructions>"

/-- One message's contribution to the `input` item list (the body of the
`for msg in &request.messages` loop, lines 998-1041).  The source also
pushes each non-empty system text into a local `system_messages` vector
that is never read again afterwards (its collection is dead code). -/
def message_input_items (input_items : List Json) (msg : Message) :
    List Json :=
  match msg with
  | .system content =>
      if (strTrim content).isEmpty then input_items
      else input_items ++ [mkMessageItem "developer" [mkInputTextItem content]]
  | .user content =>
      let content_parts := to_input_content content
      if content_parts.isEmpty then input_items
      else input_items ++ [mkMessageItem "user" content_parts]
  | .assistant content => append_assistant_items content input_items
  | .tool content =>
      content.foldl (fun items part =>
        match part with
        | .toolResult tool_call_id _ output =>
            items ++ [Json.obj [("type", .str "function_call_output"),
              ("call_id", .str tool_call_id),
              ("output", .str (tool_output_to_string output))]]
        | _ => items) input_items

/-- `build_openai_oauth_request` (the function never fails; the `Ok`
wrapper is dropped). -/
def build_openai_oauth_request (request : StreamTextRequest)
    (model : String) : Json :=
  let input_items := request.messages.foldl message_input_items []
  let body := Json.obj
    [("model", .str (normalize_model model)),
     ("input", .arr input_items),
     ("store", .bool false),
     ("stream", .bool true),
     ("instructions", .str codexInstructions),
     ("text", .obj [("verbosity", .str "medium")]),
     ("include", .arr [.str "reasoning.encrypted_content"])]
  let body :=
    match request.tools with
    | some tools =>
        let mapped_tools := tools.map (fun tool =>
          Json.obj [("type", .str "function"), ("name", .str tool.name),
            ("description", .str tool.description),
            ("parameters", tool.parameters)])
        match body with
        | .obj members => Json.obj (objInsert members "tools" (.arr mapped_tools))
        | other => other
    | none => body
  let body :=
    match request.temperature with
    | some t =>
        match body with
        | .obj members => Json.obj (objInsert members "temperature" (.float t))
        | other => other
    | none => body
  match request.top_p with
  | some p =>
      match body with
      | .obj members => Json.obj (objInsert members "top_p" (.float p))
      | other => other
  | none => body

/-! ## Basic facts about the state helpers -/

def isToolCallEvent : StreamEvent → Bool
  | .toolCall _ _ _ => true
  | _ => false

theorem push_event_emitted (st : ProtocolStreamState) (e : StreamEvent) :
    (push_event st e).emitted_tool_calls = st.emitted_tool_calls := rfl

theorem push_event_tool_calls (st : ProtocolStreamState) (e : StreamEvent) :
    (push_event st e).tool_calls = st.tool_calls := rfl

theorem push_event_pending (st : ProtocolStreamState) (e : StreamEvent) :
    (push_event st e).pending_events = st.pending_events ++ [e] := rfl

theorem start_text_emitted (st : ProtocolStreamState) :
    (start_text_if_needed st).emitted_tool_calls = st.emitted_tool_calls := by
  unfold start_text_if_needed
  split <;> rfl

theorem start_text_tool_calls (st : ProtocolStreamState) :
    (start_text_if_needed st).tool_calls = st.tool_calls := by
  unfold start_text_if_needed
  split <;> rfl

theorem start_text_pending (st : ProtocolStreamState) :
    ∃ app, (start_text_if_needed st).pending_events = st.pending_events ++ app ∧
      app.all (fun e => !isToolCallEvent e) := by
  unfold start_text_if_needed
  split
  case isTrue => exact ⟨[], by simp⟩
  case isFalse => exact ⟨[.textStart], by simp [push_event, isToolCallEvent]⟩

theorem dequeue_pending_emitted (st : ProtocolStreamState) :
    (dequeue_pending st).2.emitted_tool_calls = st.emitted_tool_calls := by
  unfold dequeue_pending
  split <;> rfl

theorem dequeue_pending_tool_calls (st : ProtocolStreamState) :
    (dequeue_pending st).2.tool_calls = st.tool_calls := by
  unfold dequeue_pending
  split <;> rfl

theorem update_order_emitted (st : ProtocolStreamState) (item_id : String)
    (index : Option Nat) :
    (update_tool_call_order st item_id index).emitted_tool_calls =
      st.emitted_tool_calls := rfl

theorem update_order_tool_calls (st : ProtocolStreamState) (item_id : String)
    (index : Option Nat) :
    (update_tool_call_order st item_id index).tool_calls = st.tool_calls := rfl

theorem update_order_pending (st : ProtocolStreamState) (item_id : String)
    (index : Option Nat) :
    (update_tool_call_order st item_id index).pending_events =
      st.pending_events := rfl

theorem setInsert_mem_self (s : List String) (k : String) :
    k ∈ setInsert s k := by
  unfold setInsert
  split
  case isTrue h => simpa using h
  case isFalse => simp

theorem setInsert_mem_of_mem (s : List String) (k k' : String)
    (h : k' ∈ s) : k' ∈ setInsert s k := by
  unfold setInsert
  split
  case isTrue => exact h
  case isFalse => simp [h]

theorem map_get_map_put_self (m : List (String × ToolCallAccum)) (k : String)
    (v : ToolCallAccum) : map_get (map_put m k v) k = some v := by
  induction m with
  | nil => simp [map_put, map_get]
  | cons p rest ih =>
    by_cases h : p.1 = k
    · simp [map_put, map_get, h]
    · simp only [map_put, map_get] at ih ⊢
      rw [if_neg (by simpa using h)]
      simpa [List.find?, (by simpa using h : (p.1 == k) = false)] using ih

/-- One `emit_tool_calls` iteration either leaves the accumulator
unchanged or pushes one `ToolCall`, inserts the key into the emitted
set, and reports the key — and the latter only when the key was not yet
in the emitted set. -/
theorem emit_step_id_or_push (force : Bool) (st : ProtocolStreamState)
    (ks : List String) (key : String) :
    emit_tool_calls_step force (st, ks) key = (st, ks) ∨
    (key ∉ st.emitted_tool_calls ∧
      ∃ (a : ToolCallAccum) (v : Json), emit_tool_calls_step force (st, ks) key =
        ({ push_event st (.toolCall a.tool_call_id a.tool_name v) with
            emitted_tool_calls := setInsert st.emitted_tool_calls key },
         ks ++ [key])) := by
  unfold emit_tool_calls_step
  by_cases h1 : key ∈ st.emitted_tool_calls
  · left
    simp [h1]
  · rcases hm : map_get st.tool_calls key with _ | a
    · left
      simp [h1, hm]
    · by_cases h2 : a.tool_name.isEmpty = true
      · left
        simp [h1, hm, h2]
      · rcases hb : build_openai_oauth_tool_input a.arguments force with _ | v
        · left
          simp [h1, hm, h2, hb]
        · right
          refine ⟨h1, a, v, ?_⟩
          simp [h1, hm, h2, hb]

/-- Full specification of the `emit_tool_calls` sweep fold: the reported
keys are fresh (not yet emitted on entry), pairwise distinct, all
inserted into the emitted set; the emitted set grows monotonically; the
accumulator map is untouched; and exactly one `ToolCall` event is pushed
per reported key. -/
theorem emit_fold_spec (force : Bool) (order : List String)
    (st0 : ProtocolStreamState) (ks0 : List String) :
    ∃ new : List String,
      (order.foldl (emit_tool_calls_step force) (st0, ks0)).2 = ks0 ++ new ∧
      new.Nodup ∧
      (∀ k ∈ new, k ∉ st0.emitted_tool_calls ∧
        k ∈ (order.foldl (emit_tool_calls_step force) (st0, ks0)).1.emitted_tool_calls) ∧
      (∀ k ∈ st0.emitted_tool_calls,
        k ∈ (order.foldl (emit_tool_calls_step force) (st0, ks0)).1.emitted_tool_calls) ∧
      (order.foldl (emit_tool_calls_step force) (st0, ks0)).1.tool_calls = st0.tool_calls ∧
      ∃ app : List StreamEvent,
        (order.foldl (emit_tool_calls_step force) (st0, ks0)).1.pending_events =
          st0.pending_events ++ app ∧
        app.length = new.length ∧ app.all isToolCallEvent := by
  induction order generalizing st0 ks0 with
  | nil =>
    refine ⟨[], by simp, by simp, by simp, fun k hk => hk, rfl, [], by simp, rfl, rfl⟩
  | cons key rest ih =>
    simp only [List.foldl_cons]
    rcases emit_step_id_or_push force st0 ks0 key with heq | ⟨hnot, a, v, heq⟩
    · rw [heq]
      exact ih st0 ks0
    · rw [heq]
      obtain ⟨new', hks, hnd, hmem, hmono, htc, app', hp, hlen, hall⟩ :=
        ih ({ push_event st0 (.toolCall a.tool_call_id a.tool_name v) with
              emitted_tool_calls := setInsert st0.emitted_tool_calls key })
          (ks0 ++ [key])
      refine ⟨key :: new', ?_, ?_, ?_, ?_, ?_, ?_⟩
      · rw [hks]
        simp
      · refine List.nodup_cons.mpr ⟨?_, hnd⟩
        intro hkey_in
        exact (hmem key hkey_in).1 (setInsert_mem_self _ _)
      · intro k hk
        rcases List.mem_cons.mp hk with rfl | hk'
        · exact ⟨hnot, hmono k (setInsert_mem_self _ _)⟩
        · refine ⟨?_, (hmem k hk').2⟩
          intro hk0
          exact (hmem k hk').1 (setInsert_mem_of_mem _ _ _ hk0)
      · intro k hk
        exact hmono k (setInsert_mem_of_mem _ _ _ hk)
      · exact htc
      · refine ⟨.toolCall a.tool_call_id a.tool_name v :: app', ?_, by simp [hlen], ?_⟩
        · rw [hp]
          simp [push_event]
        · simpa [isToolCallEvent] using hall

/-- Specification of the `function_call_arguments.done` handler: the
pending queue is untouched (the dispatcher pushes the returned event),
the emitted set only grows, and the handler either returns nothing with
no ghost key, or returns one `ToolCall` while inserting exactly its
(previously un-emitted) item id. -/
theorem done_spec (payload : Json) (st : ProtocolStreamState) :
    (parse_openai_oauth_function_call_done payload st).2.1.pending_events =
      st.pending_events ∧
    (∀ k ∈ st.emitted_tool_calls,
      k ∈ (parse_openai_oauth_function_call_done payload st).2.1.emitted_tool_calls) ∧
    (((parse_openai_oauth_function_call_done payload st).1 = none ∧
      (parse_openai_oauth_function_call_done payload st).2.2 = [] ∧
      (parse_openai_oauth_function_call_done payload st).2.1.emitted_tool_calls =
        st.emitted_tool_calls) ∨
     (∃ tid tn inp k,
        (parse_openai_oauth_function_call_done payload st).1 =
          some (.toolCall tid tn inp) ∧
        (parse_openai_oauth_function_call_done payload st).2.2 = [k] ∧
        k ∉ st.emitted_tool_calls ∧
        (parse_openai_oauth_function_call_done payload st).2.1.emitted_tool_calls =
          setInsert st.emitted_tool_calls k)) := by
  unfold parse_openai_oauth_function_call_done
  by_cases h0 : (((payload.get "item_id").bind Json.asStr)).getD "" |>.isEmpty
  · simp [h0]
  · by_cases h1 : (((payload.get "item_id").bind Json.asStr)).getD "" ∈
        st.emitted_tool_calls
    · simp [h0, h1]
    · by_cases h2 : (if ((((payload.get "arguments").bind Json.asStr)).getD "").isEmpty then
          (if ((((payload.get "name").bind Json.asStr)).getD "").isEmpty then
            ((map_get st.tool_calls ((((payload.get "item_id").bind Json.asStr)).getD "")).getD
              { tool_call_id := (((payload.get "item_id").bind Json.asStr)).getD "",
                tool_name := (((payload.get "name").bind Json.asStr)).getD "",
                arguments := "" })
          else
            { ((map_get st.tool_calls ((((payload.get "item_id").bind Json.asStr)).getD "")).getD
                { tool_call_id := (((payload.get "item_id").bind Json.asStr)).getD "",
                  tool_name := (((payload.get "name").bind Json.asStr)).getD "",
                  arguments := "" }) with
              tool_name := (((payload.get "name").bind Json.asStr)).getD "" })
        else
          { (if ((((payload.get "name").bind Json.asStr)).getD "").isEmpty then
              ((map_get st.tool_calls ((((payload.get "item_id").bind Json.asStr)).getD "")).getD
                { tool_call_id := (((payload.get "item_id").bind Json.asStr)).getD "",
                  tool_name := (((payload.get "name").bind Json.asStr)).getD "",
                  arguments := "" })
            else
              { ((map_get st.tool_calls ((((payload.get "item_id").bind Json.asStr)).getD "")).getD
                  { tool_call_id := (((payload.get "item_id").bind Json.asStr)).getD "",
                    tool_name := (((payload.get "name").bind Json.asStr)).getD "",
                    arguments := "" }) with
                tool_name := (((payload.get "name").bind Json.asStr)).getD "" }) with
            arguments := (((payload.get "arguments").bind Json.asStr)).getD "" }).tool_name |> strTrim |>.isEmpty
      · simp only [h0, Bool.false_eq_true, if_false, h1, if_neg, ite_false]
        simp [h0, h1, h2]
      · simp only [h0, Bool.false_eq_true, if_false, h1]
        simp [h0, h1, h2, update_tool_call_order]
        exact fun k hk => setInsert_mem_of_mem _ _ _ hk

/-- A state transition that leaves the emitted set unchanged and appends
only non-`ToolCall` events to the pending queue (every decoder branch
except the two tool-call sweeps is of this shape). -/
def GhostInert (st st' : ProtocolStreamState) : Prop :=
  st'.emitted_tool_calls = st.emitted_tool_calls ∧
  ∃ app, st'.pending_events = st.pending_events ++ app ∧
    app.all (fun e => !isToolCallEvent e)

theorem ghostInert_refl (st : ProtocolStreamState) : GhostInert st st :=
  ⟨rfl, [], by simp, rfl⟩

theorem ghostInert_trans {st1 st2 st3 : ProtocolStreamState}
    (h1 : GhostInert st1 st2) (h2 : GhostInert st2 st3) :
    GhostInert st1 st3 := by
  obtain ⟨he1, app1, hp1, ha1⟩ := h1
  obtain ⟨he2, app2, hp2, ha2⟩ := h2
  refine ⟨he2.trans he1, app1 ++ app2, ?_, ?_⟩
  · rw [hp2, hp1, List.append_assoc]
  · simp only [List.all_append, ha1, ha2, Bool.and_self]

theorem ghostInert_push (st : ProtocolStreamState) (e : StreamEvent)
    (he : isToolCallEvent e = false) : GhostInert st (push_event st e) :=
  ⟨rfl, [e], rfl, by simp [he]⟩

theorem ghostInert_start_text (st : ProtocolStreamState) :
    GhostInert st (start_text_if_needed st) := by
  unfold start_text_if_needed
  split
  · exact ghostInert_refl st
  · exact ⟨rfl, [.textStart], rfl, by simp [isToolCallEvent]⟩

theorem ghostInert_foldl {β : Type} (f : ProtocolStreamState → β →
    ProtocolStreamState) (hf : ∀ st b, GhostInert st (f st b)) :
    ∀ (l : List β) (st : ProtocolStreamState),
      GhostInert st (l.foldl f st)
  | [], _ => ghostInert_refl _
  | b :: rest, st => by
    simpa using ghostInert_trans (hf st b) (ghostInert_foldl f hf rest (f st b))

theorem ghostInert_set_finish (st : ProtocolStreamState) (fr : Option String) :
    GhostInert st { st with finish_reason := fr } :=
  ⟨rfl, [], by simp, rfl⟩

theorem ghostInert_chunk (payload : Json) (st : ProtocolStreamState) :
    GhostInert st (handle_chat_completion_chunk payload st) := by
  have stepContent : ∀ (delta : Json) (st1 : ProtocolStreamState), GhostInert st1
      (match (delta.get "content").bind Json.asStr with
       | some content =>
           if content.isEmpty = true then st1 else push_event st1 (.textDelta content)
       | none => st1) := by
    intro delta st1
    split
    · split
      · exact ghostInert_refl _
      · exact ghostInert_push _ _ rfl
    · exact ghostInert_refl _
  have stepDelta : ∀ (choice : Json) (st1 : ProtocolStreamState), GhostInert st1
      (match choice.get "delta" with
       | none => st1
       | some delta =>
          let st2 := start_text_if_needed st1
          match (delta.get "content").bind Json.asStr with
          | some content =>
              if content.isEmpty = true then st2 else push_event st2 (.textDelta content)
          | none => st2) := by
    intro choice st1
    split
    · exact ghostInert_refl _
    · exact ghostInert_trans (ghostInert_start_text _) (stepContent _ _)
  have stepChoice : ∀ (choices : List Json) (st1 : ProtocolStreamState),
      GhostInert st1
      (match choices.head? with
       | none => st1
       | some choice =>
          let st2 :=
            match (choice.get "finish_reason").bind Json.asStr with
            | some fr => { st1 with finish_reason := some fr }
            | none => st1
          match choice.get "delta" with
          | none => st2
          | some delta =>
            let st3 := start_text_if_needed st2
            match (delta.get "content").bind Json.asStr with
            | some content =>
                if content.isEmpty = true then st3 else push_event st3 (.textDelta content)
            | none => st3) := by
    intro choices st1
    have stepFinish : ∀ (choice : Json) (st2 : ProtocolStreamState), GhostInert st2
        (match (choice.get "finish_reason").bind Json.asStr with
         | some fr => { st2 with finish_reason := some fr }
         | none => st2) := by
      intro choice st2
      split
      · exact ghostInert_set_finish _ _
      · exact ghostInert_refl _
    split
    · exact ghostInert_refl _
    · exact ghostInert_trans (stepFinish _ _) (stepDelta _ _)
  have stepUsage : GhostInert st
      (match payload.get "usage" with
       | some u =>
          push_event st (.usage ((((u.get "prompt_tokens").bind Json.asI64)).getD 0)
            ((((u.get "completion_tokens").bind Json.asI64)).getD 0)
            ((u.get "total_tokens").bind Json.asI64) none none)
       | none => st) := by
    split
    · exact ghostInert_push _ _ rfl
    · exact ghostInert_refl _
  have stepChoices : ∀ st1 : ProtocolStreamState, GhostInert st1
      (match (payload.get "choices").bind Json.asArray with
       | none => st1
       | some choices =>
         match choices.head? with
         | none => st1
         | some choice =>
            let st2 :=
              match (choice.get "finish_reason").bind Json.asStr with
              | some fr => { st1 with finish_reason := some fr }
              | none => st1
            match choice.get "delta" with
            | none => st2
            | some delta =>
              let st3 := start_text_if_needed st2
              match (delta.get "content").bind Json.asStr with
              | some content =>
                  if content.isEmpty = true then st3
                  else push_event st3 (.textDelta content)
              | none => st3) := by
    intro st1
    split
    · exact ghostInert_refl _
    · exact stepChoice _ _
  exact ghostInert_trans stepUsage (stepChoices _)

theorem ghostInert_added (payload : Json) (st : ProtocolStreamState) :
    GhostInert st (handle_output_item_added payload st) := by
  unfold handle_output_item_added
  split
  · exact ghostInert_refl _
  · split
    · dsimp only
      split
      · exact ghostInert_refl _
      · exact ⟨rfl, [], (List.append_nil _).symm, rfl⟩
    · exact ghostInert_refl _

theorem ghostInert_delta_handler (payload : Json) (st : ProtocolStreamState) :
    GhostInert st (parse_openai_oauth_function_call_delta payload st) := by
  unfold parse_openai_oauth_function_call_delta
  dsimp only
  split
  · exact ghostInert_refl _
  · exact ⟨rfl, [], (List.append_nil _).symm, rfl⟩

theorem ghostInert_scan_part (st : ProtocolStreamState) (part : Json) :
    GhostInert st (completed_scan_part st part) := by
  unfold completed_scan_part
  have stepText : GhostInert st
      (match (part.get "text").bind Json.asStr with
       | some text => push_event (start_text_if_needed st) (.textDelta text)
       | none => st) := by
    split
    · exact ghostInert_trans (ghostInert_start_text _) (ghostInert_push _ _ rfl)
    · exact ghostInert_refl _
  have stepDelta : ∀ st1 : ProtocolStreamState, GhostInert st1
      (match (part.get "delta").bind Json.asStr with
       | some delta =>
           if delta.isEmpty = true then st1
           else push_event (start_text_if_needed st1) (.textDelta delta)
       | none => st1) := by
    intro st1
    split
    · split
      · exact ghostInert_refl _
      · exact ghostInert_trans (ghostInert_start_text _) (ghostInert_push _ _ rfl)
    · exact ghostInert_refl _
  exact ghostInert_trans stepText (stepDelta _)

theorem ghostInert_completed (payload : Json) (st : ProtocolStreamState) :
    GhostInert st (handle_response_completed payload st) := by
  unfold handle_response_completed
  have stepResp : GhostInert st
      (match payload.get "response" with
       | none => st
       | some response =>
         let st1 :=
           match response.get "usage" with
           | some u =>
               push_event st (.usage ((((u.get "input_tokens").bind Json.asI64)).getD 0)
                 ((((u.get "output_tokens").bind Json.asI64)).getD 0)
                 ((u.get "total_tokens").bind Json.asI64) none none)
           | none => st
         match (response.get "output").bind Json.asArray with
         | none => st1
         | some output =>
             output.foldl (fun st2 item =>
               match (item.get "content").bind Json.asArray with
               | some content => content.foldl completed_scan_part st2
               | none => st2) st1) := by
    split
    · exact ghostInert_refl _
    · have hu : ∀ (response : Json), GhostInert st
          (match response.get "usage" with
           | some u =>
               push_event st (.usage ((((u.get "input_tokens").bind Json.asI64)).getD 0)
                 ((((u.get "output_tokens").bind Json.asI64)).getD 0)
                 ((u.get "total_tokens").bind Json.asI64) none none)
           | none => st) := by
        intro response
        split
        · exact ghostInert_push _ _ rfl
        · exact ghostInert_refl _
      have hout : ∀ (response : Json) (st1 : ProtocolStreamState), GhostInert st1
          (match (response.get "output").bind Json.asArray with
           | none => st1
           | some output =>
               output.foldl (fun st2 item =>
                 match (item.get "content").bind Json.asArray with
                 | some content => content.foldl completed_scan_part st2
                 | none => st2) st1) := by
        intro response st1
        split
        · exact ghostInert_refl _
        · refine ghostInert_foldl _ ?_ _ _
          intro st2 item
          split
          · exact ghostInert_foldl _ ghostInert_scan_part _ _
          · exact ghostInert_refl _
      exact ghostInert_trans (hu _) (hout _ _)
  exact ghostInert_trans stepResp (ghostInert_push _ _ rfl)

/-- Relation between the state before a decoder call and the mutated
state plus ghost keys just before the final dequeue: emitted set grows,
ghost keys are fresh and recorded, and the pending queue gained exactly
one `ToolCall` event per ghost key. -/
def MutSpec (st stM : ProtocolStreamState) (keys : List String) : Prop :=
  (∀ k ∈ st.emitted_tool_calls, k ∈ stM.emitted_tool_calls) ∧
  (∀ k ∈ keys, k ∉ st.emitted_tool_calls ∧ k ∈ stM.emitted_tool_calls) ∧
  keys.Nodup ∧
  stM.pending_events.countP (fun e => isToolCallEvent e) =
    st.pending_events.countP (fun e => isToolCallEvent e) + keys.length

theorem mutSpec_of_ghostInert {st stM : ProtocolStreamState}
    (h : GhostInert st stM) : MutSpec st stM [] := by
  obtain ⟨he, app, hp, ha⟩ := h
  refine ⟨fun k hk => he ▸ hk, by simp, List.nodup_nil, ?_⟩
  rw [hp, List.countP_append]
  have : app.countP (fun e => isToolCallEvent e) = 0 := by
    rw [List.countP_eq_zero]
    intro a hain
    have := List.all_eq_true.mp ha a hain
    simpa using this
  simp [this]

theorem mutSpec_emit_fold (force : Bool) (st1 : ProtocolStreamState) :
    MutSpec st1 (emit_tool_calls force st1).1 (emit_tool_calls force st1).2 := by
  obtain ⟨new, hks, hnd, hmem, hmono, _, app, hp, hlen, hall⟩ :=
    emit_fold_spec force st1.tool_call_order st1 []
  unfold emit_tool_calls
  refine ⟨hmono, ?_, ?_, ?_⟩
  · intro k hk
    rw [hks] at hk
    exact hmem k (by simpa using hk)
  · rw [hks]
    simpa using hnd
  · rw [hp, hks, List.countP_append]
    have : app.countP (fun e => isToolCallEvent e) = app.length := by
      rw [List.countP_eq_length]
      intro a hain
      exact List.all_eq_true.mp hall a hain
    simp [this, hlen]

theorem mutSpec_comp_ghostInert {st st1 stM : ProtocolStreamState}
    {keys : List String} (h1 : GhostInert st st1) (h2 : MutSpec st1 stM keys) :
    MutSpec st stM keys := by
  obtain ⟨he, app, hp, ha⟩ := h1
  obtain ⟨hmono, hfresh, hnd, hcnt⟩ := h2
  refine ⟨fun k hk => hmono k (he ▸ hk), fun k hk => ?_, hnd, ?_⟩
  · obtain ⟨hf, hin⟩ := hfresh k hk
    exact ⟨fun hk0 => hf (he ▸ hk0), hin⟩
  · rw [hcnt, hp, List.countP_append]
    have : app.countP (fun e => isToolCallEvent e) = 0 := by
      rw [List.countP_eq_zero]
      intro a hain
      simpa using List.all_eq_true.mp ha a hain
    simp [this]

/-- Joining the dequeued head back onto the remaining queue recovers the
pre-dequeue queue. -/
theorem dequeue_join (st : ProtocolStreamState) :
    (match (dequeue_pending st).1 with
     | some e => [e]
     | none => []) ++ (dequeue_pending st).2.pending_events =
      st.pending_events := by
  rcases hp : st.pending_events with _ | ⟨e, rest⟩ <;>
    simp [dequeue_pending, hp]

/-- The property every decoder call satisfies, stated for the returned
triple: monotone emitted set, fresh distinct ghost keys, and the number
of `ToolCall` events among (returned event + remaining pending queue)
grows by exactly the ghost count. -/
def StepSpec (st : ProtocolStreamState)
    (r : Option StreamEvent × ProtocolStreamState × List String) : Prop :=
  (∀ k ∈ st.emitted_tool_calls, k ∈ r.2.1.emitted_tool_calls) ∧
  (∀ k ∈ r.2.2, k ∉ st.emitted_tool_calls ∧ k ∈ r.2.1.emitted_tool_calls) ∧
  r.2.2.Nodup ∧
  ((match r.1 with | some e => [e] | none => []) ++
      r.2.1.pending_events).countP (fun e => isToolCallEvent e) =
    st.pending_events.countP (fun e => isToolCallEvent e) + r.2.2.length

theorem stepSpec_of_mutSpec {st stM : ProtocolStreamState}
    {keys : List String} (h : MutSpec st stM keys) :
    StepSpec st ((dequeue_pending stM).1, (dequeue_pending stM).2, keys) := by
  obtain ⟨hmono, hfresh, hnd, hcnt⟩ := h
  have hde : (dequeue_pending stM).2.emitted_tool_calls =
      stM.emitted_tool_calls := dequeue_pending_emitted stM
  refine ⟨fun k hk => hde ▸ hmono k hk, fun k hk => ?_, hnd, ?_⟩
  · obtain ⟨hf, hin⟩ := hfresh k hk
    exact ⟨hf, hde ▸ hin⟩
  · have := dequeue_join stM
    simp only [StepSpec]
    rw [this]
    exact hcnt

theorem stepSpec_refl (st : ProtocolStreamState) : StepSpec st (none, st, []) := by
  refine ⟨fun k hk => hk, by simp, List.nodup_nil, by simp⟩

/-- The mutation phase of the `function_call_arguments.done` dispatcher
branch (done handler, push of its returned event, forced sweep)
satisfies `MutSpec`. -/
theorem mutSpec_done_branch (payload : Json) (st : ProtocolStreamState) :
    MutSpec st
      (emit_tool_calls true
        (match (parse_openai_oauth_function_call_done payload st).1 with
         | some e => push_event (parse_openai_oauth_function_call_done payload st).2.1 e
         | none => (parse_openai_oauth_function_call_done payload st).2.1)).1
      ((parse_openai_oauth_function_call_done payload st).2.2 ++
        (emit_tool_calls true
          (match (parse_openai_oauth_function_call_done payload st).1 with
           | some e => push_event (parse_openai_oauth_function_call_done payload st).2.1 e
           | none => (parse_openai_oauth_function_call_done payload st).2.1)).2) := by
  obtain ⟨hpend, hmono, hcase⟩ := done_spec payload st
  rcases hcase with ⟨h1, h2, h3⟩ | ⟨tid, tn, inp, k, h1, h2, h3, h4⟩
  · rw [h1, h2]
    simp only [List.nil_append]
    exact mutSpec_comp_ghostInert
      ⟨h3, [], hpend.trans (List.append_nil _).symm, rfl⟩
      (mutSpec_emit_fold true _)
  · rw [h1, h2]
    obtain ⟨hmono2, hfresh2, hnd2, hcnt2⟩ := mutSpec_emit_fold true
      (push_event (parse_openai_oauth_function_call_done payload st).2.1
        (.toolCall tid tn inp))
    have hpe : (push_event (parse_openai_oauth_function_call_done payload st).2.1
        (.toolCall tid tn inp)).emitted_tool_calls =
        setInsert st.emitted_tool_calls k := h4
    refine ⟨?_, ?_, ?_, ?_⟩
    · intro k' hk'
      exact hmono2 k' (hpe ▸ setInsert_mem_of_mem _ _ _ hk')
    · intro k' hk'
      rcases List.mem_cons.mp (by simpa using hk') with rfl | hk''
      · exact ⟨h3, hmono2 k' (hpe ▸ setInsert_mem_self _ _)⟩
      · obtain ⟨hf, hin⟩ := hfresh2 k' hk''
        refine ⟨fun hk0 => hf ?_, hin⟩
        exact hpe ▸ setInsert_mem_of_mem _ _ _ hk0
    · refine List.Nodup.cons ?_ hnd2
      intro hkin
      exact (hfresh2 k hkin).1 (hpe ▸ setInsert_mem_self _ _)
    · rw [hcnt2, push_event_pending, List.countP_append, hpend]
      simp [isToolCallEvent]
      omega

/-- Every dispatch branch satisfies `MutSpec`: the two sweep branches by
the fold/done lemmas, everything else because it is ghost-inert. -/
theorem mutSpec_dispatch (et : String) (payload : Json)
    (st : ProtocolStreamState) :
    MutSpec st (dispatch_event et payload st).1 (dispatch_event et payload st).2 := by
  unfold dispatch_event
  split
  · exact mutSpec_of_ghostInert (ghostInert_refl st)
  · exact mutSpec_of_ghostInert (ghostInert_refl st)
  · exact mutSpec_of_ghostInert (ghostInert_added payload st)
  · refine mutSpec_of_ghostInert ?_
    split
    · exact ghostInert_trans (ghostInert_start_text _) (ghostInert_push _ _ rfl)
    · exact ghostInert_refl _
  · refine mutSpec_of_ghostInert (ghostInert_trans (ghostInert_start_text st) ?_)
    split
    · split
      · exact ghostInert_refl _
      · exact ghostInert_push _ _ rfl
    · exact ghostInert_refl _
  · exact mutSpec_of_ghostInert (ghostInert_refl st)
  · exact mutSpec_comp_ghostInert (ghostInert_delta_handler payload st)
      (mutSpec_emit_fold false _)
  · exact mutSpec_done_branch payload st
  · refine mutSpec_of_ghostInert ?_
    have h1 : ∀ id : String, GhostInert st
        (if st.current_thinking_id == some id then st
         else push_event { st with current_thinking_id := some id }
           (.reasoningStart id none)) := by
      intro id
      split
      · exact ghostInert_refl _
      · exact ⟨rfl, [.reasoningStart id none], rfl, by simp [isToolCallEvent]⟩
    have h2 : ∀ (id delta : String) (st1 : ProtocolStreamState), GhostInert st1
        (if delta.isEmpty = true then st1
         else push_event st1 (.reasoningDelta id delta none)) := by
      intro id delta st1
      split
      · exact ghostInert_refl _
      · exact ghostInert_push _ _ rfl
    exact ghostInert_trans (h1 _) (h2 _ _ _)
  · exact mutSpec_of_ghostInert (ghostInert_push _ _ rfl)
  · exact mutSpec_of_ghostInert (ghostInert_completed payload st)
  · exact mutSpec_of_ghostInert (ghostInert_push _ _ rfl)
  · exact mutSpec_of_ghostInert (ghostInert_refl st)

/-- Every decoder call satisfies `StepSpec`. -/
theorem payload_step_spec (ev : Option String) (payload : Json)
    (st : ProtocolStreamState) :
    StepSpec st (parse_oauth_payload ev payload st) := by
  unfold parse_oauth_payload
  split
  · exact stepSpec_of_mutSpec (mutSpec_of_ghostInert (ghostInert_chunk payload st))
  · split
    · exact stepSpec_refl st
    · exact stepSpec_of_mutSpec (mutSpec_dispatch _ payload st)

/-- Unfolding equation for one step of the payload-level driver. -/
theorem run_payloads_cons (ev : Option String) (payload : Json)
    (rest : List (Option String × Json)) (st : ProtocolStreamState) :
    run_oauth_payloads ((ev, payload) :: rest) st =
      ((run_oauth_payloads rest
          { (parse_oauth_payload ev payload st).2.1 with pending_events := [] }).1,
       ((match (parse_oauth_payload ev payload st).1 with
         | some e => [e]
         | none => []) ++ (parse_oauth_payload ev payload st).2.1.pending_events) ++
         (run_oauth_payloads rest
           { (parse_oauth_payload ev payload st).2.1 with pending_events := [] }).2.1,
       (parse_oauth_payload ev payload st).2.2 ++
         (run_oauth_payloads rest
           { (parse_oauth_payload ev payload st).2.1 with pending_events := [] }).2.2) := rfl

/-- Run-level ghost record specification: over any frame sequence the
emitted set grows monotonically, recorded ids are fresh and pairwise
distinct, and (when starting from a drained queue) the emitted events
contain exactly one `ToolCall` per recorded id. -/
theorem run_payloads_spec (frames : List (Option String × Json))
    (st : ProtocolStreamState) :
    (∀ k ∈ st.emitted_tool_calls,
      k ∈ (run_oauth_payloads frames st).1.emitted_tool_calls) ∧
    (∀ k ∈ (run_oauth_payloads frames st).2.2,
      k ∉ st.emitted_tool_calls ∧
      k ∈ (run_oauth_payloads frames st).1.emitted_tool_calls) ∧
    (run_oauth_payloads frames st).2.2.Nodup ∧
    (st.pending_events = [] →
      (run_oauth_payloads frames st).2.1.countP (fun e => isToolCallEvent e) =
        (run_oauth_payloads frames st).2.2.length) := by
  induction frames generalizing st with
  | nil =>
    exact ⟨fun k hk => hk, by simp [run_oauth_payloads],
      by simp [run_oauth_payloads], fun _ => by simp [run_oauth_payloads]⟩
  | cons f rest ih =>
    obtain ⟨hmonoS, hfreshS, hndS, hcntS⟩ := payload_step_spec f.1 f.2 st
    have hf : f = (f.1, f.2) := rfl
    rw [hf, run_payloads_cons]
    set stMid := { (parse_oauth_payload f.1 f.2 st).2.1 with
      pending_events := ([] : List StreamEvent) } with hstMid
    obtain ⟨hmonoR, hfreshR, hndR, hcntR⟩ := ih stMid
    have hmidEm : stMid.emitted_tool_calls =
        (parse_oauth_payload f.1 f.2 st).2.1.emitted_tool_calls := rfl
    refine ⟨?_, ?_, ?_, ?_⟩
    · intro k hk
      exact hmonoR k (hmidEm ▸ hmonoS k hk)
    · intro k hk
      rcases List.mem_append.mp hk with hk1 | hk2
      · obtain ⟨hf1, hf2⟩ := hfreshS k hk1
        exact ⟨hf1, hmonoR k (hmidEm ▸ hf2)⟩
      · obtain ⟨hf1, hf2⟩ := hfreshR k hk2
        refine ⟨fun hk0 => hf1 (hmidEm ▸ hmonoS k hk0), hf2⟩
    · rw [List.nodup_append]
      refine ⟨hndS, hndR, ?_⟩
      intro k hk1 hk2
      exact (hfreshR k hk2).1 (hmidEm ▸ (hfreshS k hk1).2)
    · intro hpend
      rw [List.countP_append, List.length_append]
      have h1 : ((match (parse_oauth_payload f.1 f.2 st).1 with
          | some e => [e]
          | none => []) ++
            (parse_oauth_payload f.1 f.2 st).2.1.pending_events).countP
            (fun e => isToolCallEvent e) =
          (parse_oauth_payload f.1 f.2 st).2.2.length := by
        rw [hcntS, hpend]
        simp
      have h2 := hcntR rfl
      omega

/-- Project the item ids of the `ToolCall` events in an event list. -/
def toolCallIds (evs : List StreamEvent) : List String :=
  evs.filterMap (fun e =>
    match e with
    | .toolCall tool_call_id _ _ => some tool_call_id
    | _ => none)

/-- C3: for every request and every upstream item id, the OAuth/Codex
decoder emits at most one `ToolCall` for that id over the lifetime of
the request's `ProtocolStreamState`: the ghost record of ids whose
`ToolCall` was pushed never repeats an id (and matches the emitted
`ToolCall` events one-to-one); an id inserted into
`emitted_tool_calls` is never removed by any later call; and both the
sweep and the `function_call_arguments.done` handler skip ids already
in that set (an already-emitted id is never recorded again). -/
theorem c3_tool_call_at_most_once :
    (∀ (frames : List (Option String × Json)) (id : String),
      ((run_oauth_payloads frames initState).2.2).count id ≤ 1) ∧
    (∀ frames : List (Option String × Json),
      ((run_oauth_payloads frames initState).2.1).countP
          (fun e => isToolCallEvent e) =
        ((run_oauth_payloads frames initState).2.2).length) ∧
    (∀ (ev : Option String) (payload : Json) (st : ProtocolStreamState)
        (k : String), k ∈ st.emitted_tool_calls →
      k ∈ (parse_oauth_payload ev payload st).2.1.emitted_tool_calls) ∧
    (∀ (ev : Option String) (payload : Json) (st : ProtocolStreamState)
        (k : String), k ∈ st.emitted_tool_calls →
      k ∉ (parse_oauth_payload ev payload st).2.2) := by
  refine ⟨?_, ?_, ?_, ?_⟩
  · intro frames id
    exact List.nodup_iff_count_le_one.mp (run_payloads_spec frames initState).2.2.1 id
  · intro frames
    exact (run_payloads_spec frames initState).2.2.2 rfl
  · intro ev payload st k hk
    exact (payload_step_spec ev payload st).1 k hk
  · intro ev payload st k hk hk2
    exact ((payload_step_spec ev payload st).2.1 k hk2).1 hk

/-- Witness for C3: the hypothesis-bearing conjuncts applied at a
concrete already-emitted id and a concrete frame payload. -/
theorem c3_tool_call_at_most_once_witness :
    ("item_1" ∈ ({ initState with emitted_tool_calls := ["item_1"] } :
        ProtocolStreamState).emitted_tool_calls) ∧
    "item_1" ∈ (parse_oauth_payload none (Json.obj [])
      { initState with emitted_tool_calls := ["item_1"] }).2.1.emitted_tool_calls ∧
    "item_1" ∉ (parse_oauth_payload none (Json.obj [])
      { initState with emitted_tool_calls := ["item_1"] }).2.2 := by
  refine ⟨by simp, ?_, ?_⟩
  · exact c3_tool_call_at_most_once.2.2.1 none (Json.obj [])
      { initState with emitted_tool_calls := ["item_1"] } "item_1" (by simp)
  · exact c3_tool_call_at_most_once.2.2.2 none (Json.obj [])
      { initState with emitted_tool_calls := ["item_1"] } "item_1" (by simp)

/-- The four OAuth/Codex SSE frame data payloads of the explicit-index
scenario (the repository test
`openai_oauth_preserves_tool_call_index_order`): register `b` at index
1, then `a` at index 0, then `arguments.done` for `b`, then for `a`. -/
def c4_frames : List (Option String × String) :=
  [(none, "\x7b\"type\":\"response.output_item.added\",\"item\":\x7b\"type\":\"function_call\",\"id\":\"item_b\",\"call_id\":\"call_b\",\"name\":\"glob\",\"index\":1\x7d\x7d"),
   (none, "\x7b\"type\":\"response.output_item.added\",\"item\":\x7b\"type\":\"function_call\",\"id\":\"item_a\",\"call_id\":\"call_a\",\"name\":\"readFile\",\"index\":0\x7d\x7d"),
   (none, "\x7b\"type\":\"response.function_call_arguments.done\",\"item_id\":\"item_b\",\"name\":\"glob\",\"arguments\":\"\x7b\\\"pattern\\\":\\\"*.rs\\\"\x7d\",\"index\":1\x7d"),
   (none, "\x7b\"type\":\"response.function_call_arguments.done\",\"item_id\":\"item_a\",\"name\":\"readFile\",\"arguments\":\"\x7b\\\"file_path\\\":\\\"/tmp/a\\\"\x7d\",\"index\":0\x7d")]

set_option maxRecDepth 100000

/-- C4: with `output_item.added` frames registering function-call items
at explicit indices b:1 then a:0, followed by
`function_call_arguments.done` for `b` and then for `a`, the decoder
emits the `ToolCall` for `b` before the one for `a`
(`["call_b", "call_a"]`): the done event for `b` triggers the forced
sweep over the whole ordered list, which also emits the lower-index
call `a` although its own done event has not yet arrived. -/
theorem c4_explicit_index_order :
    toolCallIds (run_oauth_frames c4_frames initState).2.1 =
      ["call_b", "call_a"] ∧
    (run_oauth_frames c4_frames initState).2.2 = ["item_b", "item_a"] := by
  constructor <;> decide

/-! ## Orchestrator terminal-event analysis -/

theorem getLast?_append_some {α : Type} {l2 : List α} {a : α}
    (l1 : List α) (h : l2.getLast? = some a) :
    (l1 ++ l2).getLast? = some a := by
  have hne : l2 ≠ [] := by
    intro hnil
    rw [hnil] at h
    simp at h
  rw [List.getLast?_append_of_ne_nil l1 hne, h]

/-- A frame whose decoding fails produces exactly one `Error` emission
and the fatal outcome. -/
theorem handle_frame_fatal (ev : Option String) (data : String)
    (st : ProtocolStreamState) {evs : List StreamEvent}
    (h : handle_frame ev data st = (evs, .fatal)) :
    ∃ m, evs = [.error m] := by
  unfold handle_frame at h
  rcases hp : parse_openai_oauth_event ev data st with e | ⟨evOpt, st', keys⟩
  · rw [hp] at h
    exact ⟨e, (Prod.mk.injEq _ _ _ _).mp h |>.1.symm⟩
  · rw [hp] at h
    rcases evOpt with _ | e
    · simp at h
    · by_cases hd : isDoneEvent e = true <;> simp [hd] at h

/-- If the inner frame loop aborts, its emission list ends in an
`Error` event. -/
theorem process_buffer_go_abort_last (fuel : Nat) :
    ∀ (buf : List Nat) (st : ProtocolStreamState) (evs : List StreamEvent),
      process_buffer_go fuel buf st = (evs, .abort) →
      ∃ m, evs.getLast? = some (.error m) := by
  induction fuel with
  | zero =>
    intro buf st evs h
    simp [process_buffer_go] at h
  | succ f ih =>
    intro buf st evs h
    rw [process_buffer_go] at h
    split at h
    · simp at h
    · dsimp only at h
      split at h
      · obtain ⟨h1, -⟩ := (Prod.mk.injEq _ _ _ _).mp h
        exact ⟨utf8ErrorMessage, by rw [← h1]; rfl⟩
      · split at h
        · exact ih _ _ _ h
        · split at h
          case _ evs2 hf =>
            obtain ⟨m, hm⟩ := handle_frame_fatal _ _ _ hf
            obtain ⟨h1, -⟩ := (Prod.mk.injEq _ _ _ _).mp h
            exact ⟨m, by rw [← h1, hm]; rfl⟩
          case _ evs2 st' hf => simp at h
          case _ evs2 st' hf =>
            rcases hr : process_buffer_go f _ st' with ⟨more, r⟩
            rw [hr] at h
            obtain ⟨h1, h2⟩ := (Prod.mk.injEq _ _ _ _).mp h
            cases r with
            | cont b2 s2 => simp at h2
            | abort =>
              obtain ⟨m, hm⟩ := ih _ _ _ hr
              exact ⟨m, by rw [← h1]; exact getLast?_append_some evs2 hm⟩

/-- The canonical emission list of the read loop always ends with a
terminal event (the final unconditional `Done` on the success path, the
emitted `Error` on every failure path). -/
theorem stream_events_terminal_last (chunks : List ChunkResult) :
    ∀ (buf : List Nat) (st : ProtocolStreamState),
      ∃ e, ((stream_completion_events chunks buf st).1).getLast? = some e ∧
        isTerminalEvent e = true := by
  induction chunks with
  | nil =>
    intro buf st
    exact ⟨.done st.finish_reason, rfl, rfl⟩
  | cons c rest ih =>
    intro buf st
    cases c with
    | timeout => exact ⟨.error streamTimeoutMessage, rfl, rfl⟩
    | err m => exact ⟨.error ("Stream error: " ++ m), rfl, rfl⟩
    | ok bytes =>
      rw [stream_completion_events]
      by_cases hb : bytes.isEmpty = true
      · rw [if_pos hb]
        exact ih buf st
      · rw [if_neg hb]
        split
        case _ evs heq =>
          unfold process_buffer at heq
          obtain ⟨m, hm⟩ := process_buffer_go_abort_last _ _ _ _ heq
          exact ⟨.error m, hm, rfl⟩
        case _ evs buf' st' heq =>
          obtain ⟨e, he, ht⟩ := ih buf' st'
          exact ⟨e, getLast?_append_some evs he, ht⟩

/-- SSE frame (as wire text) carrying a `response.completed` payload:
the decoder turns it into a `Done` event. -/
def frameResponseCompleted : String :=
  "data: \x7b\"type\":\"response.completed\"\x7d\n\n"

/-- SSE frame carrying an `output_text.delta` payload with text `hi`. -/
def frameTextDeltaHi : String :=
  "data: \x7b\"type\":\"response.output_text.delta\",\"delta\":\"hi\"\x7d\n\n"

/-- SSE frame carrying an `output_text.delta` payload with text `hi2`. -/
def frameTextDeltaHi2 : String :=
  "data: \x7b\"type\":\"response.output_text.delta\",\"delta\":\"hi2\"\x7d\n\n"

/-- C1 (amended): the canonical event sequence of every request is
non-empty and its last element is a terminal event — the unconditional
final `Done` on the success path, the emitted `Error` on every failure
path.  (The `exactly one terminal event` half of the original claim is
refuted by `c1_counterexample`: a decoder-produced `Done` is itself
forwarded to the bus before the final unconditional `Done`.) -/
theorem c1_last_event_terminal (chunks : List ChunkResult) :
    ∃ e, ((stream_request_events chunks).1).getLast? = some e ∧
      isTerminalEvent e = true :=
  stream_events_terminal_last chunks [] initState

/-- Counterexample to C1 as stated: a single chunk holding one
`response.completed` frame yields the canonical sequence
`[Done, Done]` — the decoder's `Done` is emitted to the per-request
channel and the orchestrator then unconditionally emits a second final
`Done`, so the sequence contains two terminal events, not exactly
one. -/
theorem c1_counterexample :
    (stream_request_events [ChunkResult.ok (strBytes frameResponseCompleted)]).1 =
      [.done none, .done none] ∧
    ((stream_request_events [ChunkResult.ok (strBytes frameResponseCompleted)]).1).countP
      (fun e => isTerminalEvent e) = 2 := by
  constructor <;> rfl

/-- C2 (amended): a decoder-returned `Done` breaks only the inner
frame-decoding loop, not the outer chunk-reading loop: the remaining
undecoded buffered bytes are preserved in the buffer (not discarded)
and are decoded when a later chunk arrives.  Concretely, on a buffer
holding a `response.completed` frame followed by a text-delta frame,
the inner loop stops after emitting `Done` and returns the text-delta
frame's bytes unconsumed; processing that remainder later emits its
events. -/
theorem c2_done_breaks_inner_loop_only :
    process_buffer (strBytes (frameResponseCompleted ++ frameTextDeltaHi))
        initState =
      ([.done none], .cont (strBytes frameTextDeltaHi) initState) ∧
    (process_buffer (strBytes frameTextDeltaHi) initState).1 =
      [.textStart, .textDelta "hi"] := by
  constructor <;> rfl

/-- Counterexample to C2 as stated: after the decoder's `Done`, the
outer chunk loop keeps running — the buffered text-delta frame left
over from the first chunk and a further text-delta frame arriving in a
second chunk are both decoded and emitted, so undecoded bytes are not
discarded and the read loop does not terminate at `Done`. -/
theorem c2_counterexample :
    (stream_request_events
      [ChunkResult.ok (strBytes (frameResponseCompleted ++ frameTextDeltaHi)),
       ChunkResult.ok (strBytes frameTextDeltaHi2)]).1 =
      [.done none, .textStart, .textDelta "hi", .textDelta "hi2", .done none] := by
  rfl

/-- C10: a frame whose data string is not valid JSON makes the
OAuth/Codex decoder return `Err` before any event dispatch, regardless
of event name; in the orchestrator this is terminal: one `Error`
canonical event is emitted and the request fails — so even the
conventional non-JSON sentinel frame `data: [DONE]` aborts the whole
request instead of being skipped. -/
theorem c10_invalid_json_is_terminal :
    (∀ (ev : Option String) (data : String) (st : ProtocolStreamState),
      jsonParse data = none →
      parse_openai_oauth_event ev data st = .error jsonErrorMessage) ∧
    jsonParse "[DONE]" = none ∧
    stream_request_events [ChunkResult.ok (strBytes "data: [DONE]\n\n")] =
      ([.error jsonErrorMessage], false) := by
  refine ⟨?_, by rfl, by rfl⟩
  intro ev data st h
  unfold parse_openai_oauth_event
  rw [h]

/-- Witness for C10: the general implication applied to the `[DONE]`
sentinel with an arbitrary event name. -/
theorem c10_invalid_json_is_terminal_witness :
    jsonParse "[DONE]" = none ∧
    parse_openai_oauth_event (some "message") "[DONE]" initState =
      .error jsonErrorMessage :=
  ⟨by rfl, c10_invalid_json_is_terminal.1 (some "message") "[DONE]" initState (by rfl)⟩

/-! ## C7 support: first-occurrence characterisation of `firstSubPos` -/

/-- `pat` occurs as a contiguous sub-list of `buf` starting at byte
position `n`. -/
def occursAt {α : Type} [BEq α] (pat buf : List α) (n : Nat) : Bool :=
  pat.isPrefixOf (buf.drop n)

theorem firstSubPos_eq_some {α : Type} [BEq α] (pat : List α) :
    ∀ (buf : List α) (n : Nat), firstSubPos pat buf = some n →
      occursAt pat buf n = true ∧ ∀ m, m < n → occursAt pat buf m = false := by
  intro buf
  induction buf with
  | nil => intro n h; simp [firstSubPos] at h
  | cons b tl ih =>
    intro n h
    unfold firstSubPos at h
    by_cases hp : pat.isPrefixOf (b :: tl) = true
    · rw [if_pos hp] at h
      cases h
      exact ⟨hp, fun m hm => absurd hm (Nat.not_lt_zero m)⟩
    · rw [if_neg hp] at h
      cases hk : firstSubPos pat tl with
      | none => rw [hk] at h; simp at h
      | some k =>
        rw [hk] at h
        simp only [Option.map_some', Option.some.injEq] at h
        obtain ⟨hocc, hfirst⟩ := ih k hk
        subst h
        refine ⟨by simpa [occursAt] using hocc, ?_⟩
        intro m hm
        match m with
        | 0 => simpa [occursAt] using Bool.of_not_eq_true hp
        | j + 1 =>
          have hj : j < k := Nat.lt_of_succ_lt_succ hm
          simpa [occursAt] using hfirst j hj

theorem firstSubPos_eq_none {α : Type} [BEq α] (pat : List α) (hne : pat ≠ []) :
    ∀ (buf : List α), firstSubPos pat buf = none →
      ∀ m, occursAt pat buf m = false := by
  intro buf
  induction buf with
  | nil =>
    intro _ m
    cases pat with
    | nil => exact absurd rfl hne
    | cons p ps => simp [occursAt, List.isPrefixOf]
  | cons b tl ih =>
    intro h m
    unfold firstSubPos at h
    by_cases hp : pat.isPrefixOf (b :: tl) = true
    · rw [if_pos hp] at h; simp at h
    · rw [if_neg hp] at h
      cases hk : firstSubPos pat tl with
      | some k => rw [hk] at h; simp at h
      | none =>
        match m with
        | 0 => simpa [occursAt] using Bool.of_not_eq_true hp
        | j + 1 => simpa [occursAt] using ih hk j

/-- C7: the SSE delimiter search returns the position of the first
`\r\n\r\n` occurrence (with length 4) whenever one exists anywhere in
the buffer; only when no `\r\n\r\n` exists does it return the first
`\n\n` occurrence (with length 2).  Consequently a `\r\n\r\n` appearing
later in the buffer is preferred over an earlier `\n\n` (the buffer
`"a\n\nb\r\n\r\n"` has `\n\n` at offset 1 but is split at offset 4 with
a 4-byte delimiter), and `"event: ping\r\n\r\n"` is recognised as one
complete frame at byte offset 11 with a 4-byte delimiter. -/
theorem c7_sse_delimiter_preference :
    (∀ (buf : List Nat) (n : Nat), occursAt [13, 10, 13, 10] buf n = true →
      ∃ m, find_sse_delimiter buf = some (m, 4) ∧
        occursAt [13, 10, 13, 10] buf m = true ∧
        ∀ k, k < m → occursAt [13, 10, 13, 10] buf k = false) ∧
    (∀ (buf : List Nat) (m : Nat), find_sse_delimiter buf = some (m, 2) →
      (∀ k, occursAt [13, 10, 13, 10] buf k = false) ∧
      occursAt [10, 10] buf m = true ∧
      ∀ k, k < m → occursAt [10, 10] buf k = false) ∧
    find_sse_delimiter (strBytes "a\n\nb\r\n\r\n") = some (4, 4) ∧
    find_sse_delimiter (strBytes "event: ping\r\n\r\n") = some (11, 4) := by
  refine ⟨?_, ?_, by rfl, by rfl⟩
  · intro buf n h
    cases hk : firstSubPos [13, 10, 13, 10] buf with
    | none =>
      rw [firstSubPos_eq_none [13, 10, 13, 10] (by decide) buf hk n] at h
      cases h
    | some m =>
      obtain ⟨ho, hf⟩ := firstSubPos_eq_some [13, 10, 13, 10] buf m hk
      exact ⟨m, by simp [find_sse_delimiter, hk], ho, hf⟩
  · intro buf m h
    unfold find_sse_delimiter at h
    cases h4 : firstSubPos [13, 10, 13, 10] buf with
    | some p => rw [h4] at h; simp at h
    | none =>
      rw [h4] at h
      cases h2 : firstSubPos [10, 10] buf with
      | none => rw [h2] at h; cases h
      | some p =>
        rw [h2] at h
        simp only [Option.some.injEq, Prod.mk.injEq] at h
        obtain ⟨ho, hf⟩ := firstSubPos_eq_some [10, 10] buf p h2
        rw [← h.1]
        exact ⟨firstSubPos_eq_none [13, 10, 13, 10] (by decide) buf h4, ho, hf⟩

/-- Witness for C7: the buffer `"a\n\nb\r\n\r\n"` contains `\r\n\r\n`
at offset 4, so the first branch of the theorem applies concretely. -/
theorem c7_sse_delimiter_preference_witness :
    occursAt [13, 10, 13, 10] (strBytes "a\n\nb\r\n\r\n") 4 = true ∧
    ∃ m, find_sse_delimiter (strBytes "a\n\nb\r\n\r\n") = some (m, 4) ∧
      occursAt [13, 10, 13, 10] (strBytes "a\n\nb\r\n\r\n") m = true ∧
      ∀ k, k < m → occursAt [13, 10, 13, 10] (strBytes "a\n\nb\r\n\r\n") k = false :=
  ⟨by decide, c7_sse_delimiter_preference.1 (strBytes "a\n\nb\r\n\r\n") 4 (by decide)⟩

/-! ## C5 support: append-only accumulation of tool-call arguments -/

/-- Payload of a `response.function_call_arguments.delta` frame carrying
just the `item_id` and `delta` fields (no `index`). -/
def mkDeltaPayload (item_id delta : String) : Json :=
  Json.obj [("item_id", Json.str item_id), ("delta", Json.str delta)]

/-- Concatenation of a list of strings in order. -/
def concatStrs : List String → String
  | [] => ""
  | s :: rest => s ++ concatStrs rest

/-- The `arguments` string accumulated for `item_id` (empty when no
accumulator exists yet — the accumulator is initialised with empty
arguments, so this is the string every later append extends). -/
def argumentsOf (st : ProtocolStreamState) (item_id : String) : String :=
  ((map_get st.tool_calls item_id).map ToolCallAccum.arguments).getD ""

theorem argumentsOf_eq_acc0 (st : ProtocolStreamState) (item_id : String) :
    ((map_get st.tool_calls item_id).getD
      { tool_call_id := item_id, tool_name := "", arguments := "" }).arguments =
      argumentsOf st item_id := by
  unfold argumentsOf
  cases map_get st.tool_calls item_id <;> rfl

/-- One `function_call_arguments.delta` frame appends its delta string
to the accumulated arguments for its item id (and nothing else happens
to them). -/
theorem delta_step_args (st : ProtocolStreamState) (item_id d : String)
    (hid : item_id.isEmpty = false) :
    (map_get (parse_openai_oauth_function_call_delta (mkDeltaPayload item_id d)
        st).tool_calls item_id).map ToolCallAccum.arguments =
      some (argumentsOf st item_id ++ d) := by
  have h1 : (((mkDeltaPayload item_id d).get "item_id").bind Json.asStr).getD ""
      = item_id := rfl
  have h2 : (((mkDeltaPayload item_id d).get "delta").bind Json.asStr).getD ""
      = d := rfl
  unfold parse_openai_oauth_function_call_delta
  dsimp only
  rw [h1, h2, hid, if_neg Bool.false_ne_true]
  unfold update_tool_call_order
  dsimp only
  rw [map_get_map_put_self]
  simp only [Option.map_some']
  by_cases hd : d.isEmpty = true
  · rw [if_pos hd]
    have hd0 : d = "" := (String.isEmpty_iff d).mp hd
    subst hd0
    rw [String.append_empty, argumentsOf_eq_acc0]
  · rw [if_neg hd]
    dsimp only
    rw [argumentsOf_eq_acc0]

theorem delta_fold_args (item_id : String) (hid : item_id.isEmpty = false) :
    ∀ (deltas : List String) (st : ProtocolStreamState),
      argumentsOf (deltas.foldl (fun s d =>
          parse_openai_oauth_function_call_delta (mkDeltaPayload item_id d) s)
        st) item_id = argumentsOf st item_id ++ concatStrs deltas := by
  intro deltas
  induction deltas with
  | nil =>
    intro st
    exact (String.append_empty _).symm
  | cons d rest ih =>
    intro st
    rw [List.foldl_cons, ih]
    have harg : argumentsOf (parse_openai_oauth_function_call_delta
        (mkDeltaPayload item_id d) st) item_id = argumentsOf st item_id ++ d := by
      unfold argumentsOf
      rw [delta_step_args st item_id d hid]
      rfl
    show _ = argumentsOf st item_id ++ (d ++ concatStrs rest)
    rw [harg, String.append_assoc]

/-- C5: for every sequence of `function_call_arguments.delta` frames for
one item id (no intervening `done` for that id), the accumulated
`arguments` string after processing them equals the previous accumulated
string followed by the concatenation of the delta strings in arrival
order — strict append, never truncated, never reordered; from a fresh
state the result is exactly the concatenation of the deltas. -/
theorem c5_arguments_append_only (item_id : String) (deltas : List String)
    (st : ProtocolStreamState) (hid : item_id.isEmpty = false) :
    argumentsOf (deltas.foldl (fun s d =>
        parse_openai_oauth_function_call_delta (mkDeltaPayload item_id d) s)
      st) item_id = argumentsOf st item_id ++ concatStrs deltas :=
  delta_fold_args item_id hid deltas st

/-- Witness for C5: two delta frames `"ab"`, `"cd"` for item `item_1`
accumulate to `"abcd"` from the default state. -/
theorem c5_arguments_append_only_witness :
    argumentsOf (["ab", "cd"].foldl (fun s d =>
        parse_openai_oauth_function_call_delta (mkDeltaPayload "item_1" d) s)
      initState) "item_1" = argumentsOf initState "item_1" ++ concatStrs ["ab", "cd"] ∧
    argumentsOf (["ab", "cd"].foldl (fun s d =>
        parse_openai_oauth_function_call_delta (mkDeltaPayload "item_1" d) s)
      initState) "item_1" = "abcd" :=
  ⟨c5_arguments_append_only "item_1" ["ab", "cd"] initState (by decide), by rfl⟩

/-! ## C6 support: ordering facts for the compaction fallback -/

theorem compaction_two_first (mc : ModelsConfiguration) (a b : AvailableModel)
    (hcmp : compaction_cmp (compaction_candidate mc a)
      (compaction_candidate mc b) = .lt) :
    resolve_compaction_fallback mc [a, b] = .ok (a.key ++ "@" ++ a.provider) := by
  simp only [resolve_compaction_fallback, List.map_cons, List.map_nil, sortByCmp,
    insertCmp, hcmp]
  rfl

theorem compaction_two_second (mc : ModelsConfiguration) (a b : AvailableModel)
    (hcmp : compaction_cmp (compaction_candidate mc b)
      (compaction_candidate mc a) = .gt) :
    resolve_compaction_fallback mc [b, a] = .ok (a.key ++ "@" ++ a.provider) := by
  simp only [resolve_compaction_fallback, List.map_cons, List.map_nil, sortByCmp,
    insertCmp, hcmp]
  rfl

theorem compaction_cmp_of_ctx_lt (a b : ModelFallbackInfo)
    (h : b.context_length < a.context_length) :
    compaction_cmp a b = .lt ∧ compaction_cmp b a = .gt := by
  constructor
  · unfold compaction_cmp
    rw [compare_lt_iff_lt.mpr h]
  · unfold compaction_cmp
    rw [compare_gt_iff_gt.mpr h]

theorem compaction_cmp_of_ctx_eq (a b : ModelFallbackInfo)
    (h : a.context_length = b.context_length) :
    compaction_cmp a b = cmpFPrice a.input_price b.input_price := by
  unfold compaction_cmp
  rw [h, compare_eq_iff_eq.mpr rfl]

theorem cmpFPrice_val_lt (pa pb : Rat) (h : pa < pb) :
    cmpFPrice (.val pa) (.val pb) = .lt ∧ cmpFPrice (.val pb) (.val pa) = .gt := by
  constructor
  · unfold cmpFPrice
    exact compare_lt_iff_lt.mpr h
  · unfold cmpFPrice
    exact compare_gt_iff_gt.mpr h

/-- C6: the compaction fallback orders candidates by `context_length`
descending with ties broken by `input_price` ascending, where an
unknown/unparsable price maps to `+infinity` and an unknown context
length to `0`, and returns the first candidate.  In particular, for two
available models with context lengths `32000` and `8192` it selects the
`32000`-context model in either registration order, and for equal
context lengths it selects the one with the lower (finite) input
price in either order. -/
theorem c6_compaction_fallback_order :
    (∀ (a b : ModelFallbackInfo), b.context_length < a.context_length →
      compaction_cmp a b = .lt ∧ compaction_cmp b a = .gt) ∧
    (∀ (a b : ModelFallbackInfo), a.context_length = b.context_length →
      compaction_cmp a b = cmpFPrice a.input_price b.input_price) ∧
    (∀ (q : Rat), cmpFPrice (.val q) .inf = .lt ∧ cmpFPrice .inf (.val q) = .gt) ∧
    (∀ (mc : ModelsConfiguration) (m : AvailableModel),
      m.input_pricing.bind parse_f64 = none →
      (compaction_candidate mc m).input_price = .inf) ∧
    (∀ (mc : ModelsConfiguration) (m : AvailableModel),
      (mc.get m.key).bind (fun c => c.context_length) = none →
      (compaction_candidate mc m).context_length = 0) ∧
    (∀ (mc : ModelsConfiguration) (a b : AvailableModel),
      (compaction_candidate mc a).context_length = 32000 →
      (compaction_candidate mc b).context_length = 8192 →
      resolve_compaction_fallback mc [a, b] = .ok (a.key ++ "@" ++ a.provider) ∧
      resolve_compaction_fallback mc [b, a] = .ok (a.key ++ "@" ++ a.provider)) ∧
    (∀ (mc : ModelsConfiguration) (a b : AvailableModel) (pa pb : Rat),
      (compaction_candidate mc a).context_length =
        (compaction_candidate mc b).context_length →
      (compaction_candidate mc a).input_price = .val pa →
      (compaction_candidate mc b).input_price = .val pb →
      pa < pb →
      resolve_compaction_fallback mc [a, b] = .ok (a.key ++ "@" ++ a.provider) ∧
      resolve_compaction_fallback mc [b, a] = .ok (a.key ++ "@" ++ a.provider)) := by
  refine ⟨compaction_cmp_of_ctx_lt, compaction_cmp_of_ctx_eq,
    fun q => ⟨rfl, rfl⟩, ?_, ?_, ?_, ?_⟩
  · intro mc m h
    unfold compaction_candidate
    dsimp only
    rw [h]
  · intro mc m h
    unfold compaction_candidate
    dsimp only
    rw [h]
    rfl
  · intro mc a b ha hb
    have h1 := compaction_cmp_of_ctx_lt (compaction_candidate mc a)
      (compaction_candidate mc b) (by rw [ha, hb]; decide)
    exact ⟨compaction_two_first mc a b h1.1, compaction_two_second mc a b h1.2⟩
  · intro mc a b pa pb hctx hpa hpb hlt
    have hc := cmpFPrice_val_lt pa pb hlt
    have h1 : compaction_cmp (compaction_candidate mc a)
        (compaction_candidate mc b) = .lt := by
      rw [compaction_cmp_of_ctx_eq _ _ hctx, hpa, hpb]
      exact hc.1
    have h2 : compaction_cmp (compaction_candidate mc b)
        (compaction_candidate mc a) = .gt := by
      rw [compaction_cmp_of_ctx_eq _ _ hctx.symm, hpa, hpb]
      exact hc.2
    exact ⟨compaction_two_first mc a b h1, compaction_two_second mc a b h2⟩

def c6BigConfig : ModelConfig :=
  { name := "Big", providers := ["p1"], input_pricing := none,
    context_length := some 32000 }

def c6SmallConfig : ModelConfig :=
  { name := "Small", providers := ["p1"], input_pricing := none,
    context_length := some 8192 }

def c6ModelsConfig : ModelsConfiguration :=
  ⟨[("big", c6BigConfig), ("small", c6SmallConfig)]⟩

def c6BigModel : AvailableModel :=
  { key := "big", name := "Big", provider := "p1", input_pricing := none }

def c6SmallModel : AvailableModel :=
  { key := "small", name := "Small", provider := "p1", input_pricing := none }

/-- Witness for C6: with concrete configured models of context lengths
32000 and 8192, the compaction fallback picks the 32000-context model
in both registration orders. -/
theorem c6_compaction_fallback_order_witness :
    resolve_compaction_fallback c6ModelsConfig [c6BigModel, c6SmallModel] =
      .ok (c6BigModel.key ++ "@" ++ c6BigModel.provider) ∧
    resolve_compaction_fallback c6ModelsConfig [c6SmallModel, c6BigModel] =
      .ok (c6BigModel.key ++ "@" ++ c6BigModel.provider) :=
  c6_compaction_fallback_order.2.2.2.2.2.1 c6ModelsConfig c6BigModel c6SmallModel
    (by decide) (by decide)

/-! ## C8: validation of explicit `key@provider` identifiers -/

def c8Registry : ProviderRegistry :=
  ⟨[{ id := "p", auth_type := .apiKey, supports_oauth := false }]⟩

def c8ModelCfg : ModelConfig :=
  { name := "M", providers := ["p"], input_pricing := none, context_length := none }

def c8Models : ModelsConfiguration :=
  ⟨[("m", c8ModelCfg)]⟩

def c8Custom : CustomProvidersConfiguration := ⟨[]⟩

/-- C8 counterexample: the `key@provider` branch of `try_resolve_model`
accepts `"m@p"` although provider `p` is NOT available (it requires an
API key and none is configured) — the branch checks only that the model
key is configured and the provider id exists in the registry, not
availability. -/
theorem c8_counterexample :
    try_resolve_model c8Models [] c8Custom c8Registry "m@p" = some "m@p" ∧
    provider_available "p" [] c8Registry c8Custom = false := by
  constructor <;> decide

/-- C8 (amended): for a preferred identifier of the form
`key@provider` (that is not itself a configured model key), resolution
validates only that the model key is configured and that the provider
id exists in the registry — availability is not consulted; on success
the identifier is returned as `key@provider` unchanged, and when this
existence check fails the resolver falls through to the fallback
strategy exactly as if no preferred identifier had been given. -/
theorem c8_at_provider_existence_only (models : ModelsConfiguration)
    (api_map : List (String × String)) (custom : CustomProvidersConfiguration)
    (registry : ProviderRegistry) (id k p : String)
    (hsplit : splitOnChar '@' id = [k, p])
    (hnk : models.containsKey id = false)
    (hat : strContainsChar id '@' = true) :
    try_resolve_model models api_map custom registry id =
      (if models.containsKey k && (registry.provider p).isSome
       then some (k ++ "@" ++ p) else none) ∧
    ((models.containsKey k && (registry.provider p).isSome) = false →
      ∀ (available : List AvailableModel) (strategy : FallbackStrategy),
        resolve_model_identifier models api_map custom registry available
          (some id) strategy =
        resolve_model_identifier models api_map custom registry available
          none strategy) := by
  have h1 : try_resolve_model models api_map custom registry id =
      (if models.containsKey k && (registry.provider p).isSome
       then some (k ++ "@" ++ p) else none) := by
    unfold try_resolve_model
    rw [hnk, if_neg Bool.false_ne_true, hat, if_pos rfl, hsplit]
  refine ⟨h1, ?_⟩
  intro hval available strategy
  unfold resolve_model_identifier
  dsimp only
  rw [h1, hval]
  rfl

/-- Witness for C8: the amended theorem applied to the concrete
configuration of the counterexample. -/
theorem c8_at_provider_existence_only_witness :
    (try_resolve_model c8Models [] c8Custom c8Registry "m@p" =
      (if c8Models.containsKey "m" && (c8Registry.provider "p").isSome
       then some ("m" ++ "@" ++ "p") else none)) ∧
    ((c8Models.containsKey "m" && (c8Registry.provider "p").isSome) = false →
      ∀ (available : List AvailableModel) (strategy : FallbackStrategy),
        resolve_model_identifier c8Models [] c8Custom c8Registry available
          (some "m@p") strategy =
        resolve_model_identifier c8Models [] c8Custom c8Registry available
          none strategy) :=
  c8_at_provider_existence_only c8Models [] c8Custom c8Registry "m@p" "m" "p"
    (by decide) (by decide) (by decide)

/-! ## C9: system messages in the OAuth/Codex request body -/

theorem system_fold_developer (contents : List String) :
    ∀ (acc : List Json),
      (contents.map Message.system).foldl message_input_items acc =
        acc ++ (contents.filter (fun c => !(strTrim c).isEmpty)).map
          (fun c => mkMessageItem "developer" [mkInputTextItem c]) := by
  induction contents with
  | nil => intro acc; simp
  | cons c rest ih =>
    intro acc
    rw [List.map_cons, List.foldl_cons]
    by_cases h : (strTrim c).isEmpty = true
    · have hstep : message_input_items acc (Message.system c) = acc := by
        unfold message_input_items
        dsimp only
        rw [if_pos h]
      rw [hstep, ih]
      have hf : (fun c => !(strTrim c).isEmpty) c = false := by simp [h]
      simp [List.filter_cons, hf]
    · have hb : (strTrim c).isEmpty = false := by
        cases hx : (strTrim c).isEmpty
        · rfl
        · exact absurd hx h
      have hstep : message_input_items acc (Message.system c) =
          acc ++ [mkMessageItem "developer" [mkInputTextItem c]] := by
        unfold message_input_items
        dsimp only
        rw [hb, if_neg Bool.false_ne_true]
      rw [hstep, ih]
      have hf : (fun c => !(strTrim c).isEmpty) c = true := by simp [hb]
      simp [List.filter_cons, hf]

/-- C9 (amended): the `instructions` field of the OAuth/Codex request
body is the fixed base instruction text, for every request and model —
system messages contribute nothing to it (the `system_messages` vector
collected in the builder is never read again); each non-blank system
message is translated only into a `developer`-role message item of the
`input` list, in message order, with blank ones skipped. -/
theorem c9_instructions_and_developer :
    (∀ (request : StreamTextRequest) (model : String),
      (build_openai_oauth_request request model).get "instructions" =
        some (.str codexInstructions)) ∧
    (∀ (request : StreamTextRequest) (model : String) (contents : List String),
      request.messages = contents.map Message.system →
      (build_openai_oauth_request request model).get "input" =
        some (.arr ((contents.filter (fun c => !(strTrim c).isEmpty)).map
          (fun c => mkMessageItem "developer" [mkInputTextItem c])))) := by
  constructor
  · intro request model
    unfold build_openai_oauth_request
    dsimp only
    cases request.tools <;> cases request.temperature <;> cases request.top_p <;> rfl
  · intro request model contents hmsgs
    unfold build_openai_oauth_request
    dsimp only
    rw [hmsgs, system_fold_developer contents []]
    rw [List.nil_append]
    cases request.tools <;> cases request.temperature <;> cases request.top_p <;> rfl

def c9Request : StreamTextRequest :=
  { messages := [Message.system "You are a pirate.", Message.user (.text "hi")] }

/-- C9 counterexample: a request with the system message
`"You are a pirate."` builds a body whose `instructions` field is the
base instruction constant — the system text is not contained in it —
while the system message appears only as a `developer`-role item of the
`input` list. -/
theorem c9_counterexample :
    (build_openai_oauth_request c9Request "gpt-5.2-codex").get "instructions" =
      some (.str codexInstructions) ∧
    strContainsSub codexInstructions "You are a pirate." = false ∧
    (build_openai_oauth_request c9Request "gpt-5.2-codex").get "input" =
      some (.arr [mkMessageItem "developer" [mkInputTextItem "You are a pirate."],
        mkMessageItem "user" [mkInputTextItem "hi"]]) := by
  refine ⟨by rfl, by decide, by rfl⟩

/-- Witness for C9: two system messages, one blank; the `input` list
holds one developer item for the non-blank one. -/
theorem c9_instructions_and_developer_witness :
    (build_openai_oauth_request { messages := [Message.system "Be brief.",
        Message.system "  "] } "m").get "input" =
      some (.arr (([ "Be brief.", "  " ].filter (fun c => !(strTrim c).isEmpty)).map
        (fun c => mkMessageItem "developer" [mkInputTextItem c]))) :=
  c9_instructions_and_developer.2 { messages := [Message.system "Be brief.",
    Message.system "  "] } "m" ["Be brief.", "  "] (by rfl)
